import Mathlib

/-!
Verification of the PRANA breathing-audio analysis engine
(`src/components/prana/AudioProcessor.jsx`).

The JavaScript code is shallowly embedded in Lean.  JavaScript numbers are
modelled as exact rationals together with an explicit `NaN` element
(`JNum`), because several divisions in the source can evaluate to `0/0`.
Comparisons with `NaN` are `false`, and arithmetic on `NaN` yields `NaN`,
exactly as in JavaScript.  The cases `x/0` with `x ≠ 0` (JavaScript
`Infinity`) are also mapped to `JNum.nan`; no code path analysed here
produces them.  `-0`, overflow to `Infinity` and floating-point rounding
are not modelled: all literals of the source are read as exact rationals.

`Math.sqrt`, `Math.cos` and `Math.sin` produce irrational numbers, so the
embedding is parametric in three rational functions `f`, `c`, `s`
standing for the square root and for `x ↦ cos (2*π*x)`, `x ↦ sin (2*π*x)`.
Theorems assume about them only what they need (for example `f 0 = 0`);
every property proved below therefore holds for the real square root and
trigonometric functions.
-/

/-- A JavaScript number: either an exact rational or `NaN`. -/
inductive JNum where
  | nan : JNum
  | num : ℚ → JNum
deriving DecidableEq

namespace JNum

/-- JavaScript addition; `NaN` is absorbing. -/
def add : JNum → JNum → JNum
  | num a, num b => num (a + b)
  | _, _ => nan

/-- JavaScript subtraction; `NaN` is absorbing. -/
def sub : JNum → JNum → JNum
  | num a, num b => num (a - b)
  | _, _ => nan

/-- JavaScript multiplication; `NaN` is absorbing. -/
def mul : JNum → JNum → JNum
  | num a, num b => num (a * b)
  | _, _ => nan

/-- JavaScript division.  `0/0` is `NaN`; division by zero with a nonzero
numerator (JavaScript `Infinity`) is also mapped to `nan` — that case is
never reached by the code verified here. -/
def div : JNum → JNum → JNum
  | num a, num b => if b = 0 then nan else num (a / b)
  | _, _ => nan

/-- JavaScript `<`.  Every comparison involving `NaN` is `false`. -/
def lt : JNum → JNum → Bool
  | num a, num b => a < b
  | _, _ => false

/-- JavaScript `>`.  Every comparison involving `NaN` is `false`. -/
def gt : JNum → JNum → Bool
  | num a, num b => b < a
  | _, _ => false

/-- `Math.max`; returns `NaN` if an argument is `NaN`. -/
def maxJ : JNum → JNum → JNum
  | num a, num b => num (max a b)
  | _, _ => nan

/-- `Math.min`; returns `NaN` if an argument is `NaN`. -/
def minJ : JNum → JNum → JNum
  | num a, num b => num (min a b)
  | _, _ => nan

/-- `Math.round`: round half toward positive infinity, i.e. `⌊x + 1/2⌋`. -/
def round : JNum → JNum
  | num a => num ((⌊a + 1/2⌋ : ℤ) : ℚ)
  | nan => nan

/-- `Math.pow(x, 2)`, the only use of `Math.pow` on data in the source. -/
def sq : JNum → JNum
  | num a => num (a * a)
  | nan => nan

/-- `Math.sqrt`, parametric in the rational square-root function `f`
(`f` is only ever applied to nonnegative arguments by the code). -/
def sqrtJ (f : ℚ → ℚ) : JNum → JNum
  | num a => if a < 0 then nan else num (f a)
  | nan => nan

end JNum

/-!
## Ring Sample Buffer (`class CircularBuffer`)

The `Float32Array` backing store is modelled as a total function `ℕ → ℚ`
(a `Float32Array` is zero-initialised, hence `fun _ => 0` at construction).
For every capacity `size ≥ 1` the write index `tail` always satisfies
`tail < size`, so the functional update coincides with the JavaScript
array write.  For `size = 0`, JavaScript computes `(tail + 1) % 0 = NaN`
and silently drops the out-of-bounds write; that degenerate state is not
modelled beyond the constructor (no claim exercises a push at capacity 0).
-/

structure CircularBuffer where
  buffer : ℕ → ℚ
  size : ℕ
  head : ℕ
  tail : ℕ
  count : ℕ

/-- `new CircularBuffer(size)`.  The constructor performs no validation:
it succeeds for every `size`, including `0`. -/
def CircularBuffer.new (size : ℕ) : CircularBuffer :=
  { buffer := fun _ => 0, size := size, head := 0, tail := 0, count := 0 }

/-- `CircularBuffer.push(value)`. -/
def CircularBuffer.push (b : CircularBuffer) (value : ℚ) : CircularBuffer :=
  let buffer := Function.update b.buffer b.tail value
  let tail := (b.tail + 1) % b.size
  if b.count < b.size then
    { b with buffer := buffer, tail := tail, count := b.count + 1 }
  else
    { b with buffer := buffer, tail := tail, head := (b.head + 1) % b.size }

/-- `CircularBuffer.pushArray(arr)`: push every element in order. -/
def CircularBuffer.pushArray (b : CircularBuffer) (arr : List ℚ) : CircularBuffer :=
  arr.foldl CircularBuffer.push b

/-- `CircularBuffer.toArray()`: the held samples in chronological order. -/
def CircularBuffer.toArray (b : CircularBuffer) : List ℚ :=
  (List.range b.count).map (fun i => b.buffer ((b.head + i) % b.size))

/-- `CircularBuffer.clear()`. -/
def CircularBuffer.clear (b : CircularBuffer) : CircularBuffer :=
  { b with head := 0, tail := 0, count := 0 }

/-!
## Severity Ranking Structure (`class PriorityQueue`)

An item couples the stored element with its numeric priority.  `enqueue`
scans left to right and splices the new item in front of the first item
whose priority is strictly lower (`item.priority > this.items[i].priority`),
appending at the end when no such item exists.  The linear scan is
expressed as structural recursion on the item list.
-/

structure PQItem (α : Type) where
  element : α
  priority : JNum
deriving DecidableEq

/-- The body of `PriorityQueue.enqueue`: insert before the first item of
strictly lower priority, else append. -/
def insertItem {α : Type} : List (PQItem α) → PQItem α → List (PQItem α)
  | [], x => [x]
  | y :: ys, x => if JNum.gt x.priority y.priority then x :: y :: ys else y :: insertItem ys x

structure PriorityQueue (α : Type) where
  items : List (PQItem α)

/-- `new PriorityQueue()`. -/
def PriorityQueue.new (α : Type) : PriorityQueue α := ⟨[]⟩

/-- `PriorityQueue.enqueue(element, priority)`. -/
def PriorityQueue.enqueue {α : Type} (q : PriorityQueue α) (element : α) (p : JNum) :
    PriorityQueue α :=
  ⟨insertItem q.items ⟨element, p⟩⟩

/-- `PriorityQueue.getAll()`: elements paired with their severity. -/
def PriorityQueue.getAll {α : Type} (q : PriorityQueue α) : List (α × JNum) :=
  q.items.map (fun i => (i.element, i.priority))

/-- `PriorityQueue.isEmpty()`. -/
def PriorityQueue.isEmpty {α : Type} (q : PriorityQueue α) : Bool :=
  q.items.length = 0

/-- A whole insertion history: fold `enqueue` over a list of
`(element, priority)` pairs with real (non-`NaN`) priorities, starting
from the empty queue.  Used to state ordering properties of the Severity
Ranking Structure. -/
def insertAll {α : Type} (xs : List (α × ℚ)) : PriorityQueue α :=
  xs.foldl (fun q ep => q.enqueue ep.1 (JNum.num ep.2)) (PriorityQueue.new α)

/-!
## Spectral Transform (`function fft`)

`Math.pow(2, Math.ceil(Math.log2(n)))` is the least power of two `≥ n`
(for `n = 0` JavaScript yields `2^(-Infinity) = 0`; the transform then
degenerates to empty output, as the spec notes).  The two running sums of
the inner loop are computed by one fold over `t ∈ [0, P)`; `c x` and
`s x` stand for `cos (2*π*x)` and `sin (2*π*x)` applied to the rational
angle fraction `k*t/P`, and `f` for `Math.sqrt`.
-/

/-- Padded transform length: least power of two `≥ n` (`0` for `n = 0`). -/
def paddedLength (n : ℕ) : ℕ :=
  if n = 0 then 0 else 2 ^ Nat.clog 2 n

/-- The inner loop of `fft` for bin `k`: the pair `(sumReal, sumImag)`. -/
def dftSums (c s : ℚ → ℚ) (padded : List ℚ) (P k : ℕ) : ℚ × ℚ :=
  (List.range P).foldl
    (fun acc t =>
      (acc.1 + padded.getD t 0 * c ((k * t : ℕ) / (P : ℚ)),
       acc.2 - padded.getD t 0 * s ((k * t : ℕ) / (P : ℚ))))
    (0, 0)

structure FftResult where
  real : List ℚ
  imag : List ℚ
  magnitudes : List ℚ
deriving DecidableEq

/-- `fft(signal)`: direct DFT over the zero-padded frame. -/
def fft (c s f : ℚ → ℚ) (signal : List ℚ) : FftResult :=
  let P := paddedLength signal.length
  let padded := signal ++ List.replicate (P - signal.length) 0
  let pairs := (List.range (P / 2)).map (dftSums c s padded P)
  { real := pairs.map Prod.fst
    imag := pairs.map Prod.snd
    magnitudes := pairs.map (fun p => f (p.1 * p.1 + p.2 * p.2)) }

/-!
## Frame features (`calculateZCR`, `calculateEnergy`, `calculateRMS`)
-/

/-- The crossing count of `calculateZCR`: transitions where one sample is
`≥ 0` and its predecessor `< 0`, or vice versa. -/
def countCrossings : List ℚ → ℕ
  | a :: b :: rest =>
      (if (0 ≤ b ∧ a < 0) ∨ (b < 0 ∧ 0 ≤ a) then 1 else 0) + countCrossings (b :: rest)
  | _ => 0

/-- `calculateZCR(signal)`: `crossings / (signal.length - 1)`.  For a
single-sample frame this is `0/0`, i.e. `NaN`; there is no guard in the
source. -/
def calculateZCR (signal : List ℚ) : JNum :=
  JNum.div (JNum.num (countCrossings signal)) (JNum.num ((signal.length : ℚ) - 1))

/-- `calculateEnergy(signal)`: mean of squared samples (`0/0 = NaN` on an
empty frame). -/
def calculateEnergy (signal : List ℚ) : JNum :=
  JNum.div (JNum.num (signal.foldl (fun energy x => energy + x * x) 0))
    (JNum.num (signal.length : ℚ))

/-- `calculateRMS(signal) = Math.sqrt(calculateEnergy(signal))`. -/
def calculateRMS (f : ℚ → ℚ) (signal : List ℚ) : JNum :=
  JNum.sqrtJ f (calculateEnergy signal)

/-!
## Peak Detector (`function detectPeaks`)

The `for` loop over `i = 1, …, length − 2` is expressed as a tail
recursion `detectFrom` on the loop counter; `minDist` is the
`Math.floor(signal.length / 20)` minimum distance, and the acceptance test
compares against the most recently accepted peak (`peaks[peaks.length-1]`).
-/

structure Peak where
  index : ℕ
  value : JNum
deriving DecidableEq

/-- The peak test of the `detectPeaks` loop body: strictly above both
neighbours and above the threshold. -/
def isPeakAt (signal : List JNum) (threshold : JNum) (i : ℕ) : Bool :=
  JNum.gt (signal.getD i JNum.nan) (signal.getD (i - 1) JNum.nan)
    && JNum.gt (signal.getD i JNum.nan) (signal.getD (i + 1) JNum.nan)
    && JNum.gt (signal.getD i JNum.nan) threshold

/-- One pass of the `detectPeaks` loop from counter `i` onward. -/
def detectFrom (signal : List JNum) (threshold : JNum) (minDist : ℕ) :
    ℕ → List Peak → List Peak
  | i, peaks =>
    if h : i + 1 < signal.length then
      let peaks' :=
        if isPeakAt signal threshold i then
          match peaks.getLast? with
          | none => peaks ++ [⟨i, signal.getD i JNum.nan⟩]
          | some lastPk =>
            if minDist < i - lastPk.index then peaks ++ [⟨i, signal.getD i JNum.nan⟩]
            else peaks
        else peaks
      detectFrom signal threshold minDist (i + 1) peaks'
    else peaks
termination_by i _ => signal.length - i

/-- `detectPeaks(signal, threshold)`. -/
def detectPeaks (signal : List JNum) (threshold : JNum) : List Peak :=
  detectFrom signal threshold (signal.length / 20) 1 []

/-!
## Noise gate (`function removeNoise`)

The source default for `noiseThreshold` is `0.02`; call sites below pass
it explicitly as `1/50`.
-/

/-- `removeNoise(signal, noiseThreshold)`: zero every sample whose
absolute value is not strictly above the threshold. -/
def removeNoise (signal : List ℚ) (noiseThreshold : ℚ) : List ℚ :=
  signal.map (fun x => if noiseThreshold < |x| then x else 0)

/-!
## Sliding-Window Pipeline (`function slidingWindowAnalysis`)

A frame record (`windows.push({...})` in the source) holds the per-frame
features.  The dominant-frequency scan starts at bin 1, keeping the first
bin that strictly exceeds the running maximum (initially `0`).
The `for (start = 0; start < signal.length - windowSize; start += hopSize)`
loop is modelled with a fuel parameter; `signal.length` units of fuel are
sufficient for every positive `hopSize` (with `hopSize = 0` the JavaScript
loop diverges, which no claim exercises).
-/

structure Window where
  startSample : ℕ
  energy : JNum
  rms : JNum
  zcr : JNum
  dominantFreq : JNum
  fftMagnitudes : List ℚ
  timestamp : JNum
deriving DecidableEq

/-- The dominant-frequency scan: `(maxMag, dominantFreqBin)` after the
loop over bins `i = 1, …`. -/
def dominantBin (magnitudes : List ℚ) : ℚ × ℕ :=
  (List.range magnitudes.length).foldl
    (fun acc i => if 0 < i ∧ acc.1 < magnitudes.getD i 0 then (magnitudes.getD i 0, i) else acc)
    (0, 0)

/-- The body of the sliding-window loop: the frame record built at a given
`start` offset. -/
def mkWindow (f c s : ℚ → ℚ) (signal : List ℚ) (windowSize : ℕ) (sampleRate : ℚ)
    (start : ℕ) : Window :=
  let window := (signal.drop start).take windowSize
  let fftResult := fft c s f window
  let dom := dominantBin fftResult.magnitudes
  { startSample := start
    energy := calculateEnergy window
    rms := calculateRMS f window
    zcr := calculateZCR window
    dominantFreq := JNum.div (JNum.num ((dom.2 : ℚ) * sampleRate))
      (JNum.num ((windowSize : ℚ) * 2))
    fftMagnitudes := fftResult.magnitudes
    timestamp := JNum.div (JNum.num (start : ℚ)) (JNum.num sampleRate) }

/-- The sliding-window loop, driven by fuel. -/
def slideLoop (f c s : ℚ → ℚ) (signal : List ℚ) (windowSize hopSize : ℕ)
    (sampleRate : ℚ) : ℕ → ℕ → List Window
  | 0, _ => []
  | fuel + 1, start =>
    if start + windowSize < signal.length then
      mkWindow f c s signal windowSize sampleRate start ::
        slideLoop f c s signal windowSize hopSize sampleRate fuel (start + hopSize)
    else []

/-- `slidingWindowAnalysis(signal, windowSize, hopSize, sampleRate)`. -/
def slidingWindowAnalysis (f c s : ℚ → ℚ) (signal : List ℚ) (windowSize hopSize : ℕ)
    (sampleRate : ℚ) : List Window :=
  slideLoop f c s signal windowSize hopSize sampleRate signal.length 0

/-- Closed form for the number of frames the loop produces:
`⌈(signalLength − windowSize) / hopSize⌉` with truncating subtraction. -/
def slideCount (signalLength windowSize hopSize : ℕ) : ℕ :=
  (signalLength - windowSize + hopSize - 1) / hopSize

/-!
## Classifier (`function classifyBreathing`)

The aggregate `FeatureMap` contents read by the classifier are modelled as
a record with the fixed keys of the source (the `Map`-plus-history
mechanics of `class FeatureMap` carry no claim and are flattened away).
The classifier threads the abnormality queue and the running score through
explicit state; the source mutates local variables in the same order.
-/

inductive AbnType where
  | wheezing
  | irregular
  | shortness
  | noise
deriving DecidableEq

structure AbnEvent where
  type : AbnType
  description : String
  percentage : JNum
deriving DecidableEq

inductive Status where
  | normal
  | abnormal
deriving DecidableEq

inductive BreathingType where
  | deep
  | slow
  | regular
deriving DecidableEq

structure ClassificationResult where
  status : Status
  breathingType : Option BreathingType
  abnormalityConfidence : Option JNum
  stabilityScore : JNum
  lungComfort : String
  confidenceScore : JNum
deriving DecidableEq

structure Features where
  avgEnergy : JNum
  avgRMS : JNum
  avgZCR : JNum
  avgDominantFreq : JNum
  energyVariance : JNum
  breathingRate : JNum
  peakCount : ℕ
  windowFeatures : List Window
deriving DecidableEq

/-- The five independent checks of `classifyBreathing`: returns
`(isNormal, abnormalityScore, queue)` after all five checks ran in
source order. -/
def classifyChecks (fm : Features) (queue0 : PriorityQueue AbnEvent) :
    Bool × JNum × PriorityQueue AbnEvent :=
  let avgEnergy := fm.avgEnergy
  let avgRMS := fm.avgRMS
  let avgZCR := fm.avgZCR
  let energyVariance := fm.energyVariance
  let breathingRate := fm.breathingRate
  let windowFeatures := fm.windowFeatures
  -- Check 1: avgZCR > NORMAL_ZCR_MAX (0.08)
  let c1 := JNum.gt avgZCR (JNum.num (8/100))
  let sev1 := JNum.minJ (JNum.num 100)
    (JNum.mul (JNum.div (JNum.sub avgZCR (JNum.num (8/100))) (JNum.num (8/100))) (JNum.num 100))
  let queue1 := if c1 then
      queue0.enqueue ⟨AbnType.wheezing, "Wheezing pattern detected (high frequency)",
        JNum.round (JNum.maxJ (JNum.num 35) sev1)⟩ sev1
    else queue0
  let score1 := if c1 then JNum.add (JNum.num 0) (JNum.mul sev1 (JNum.num (4/10)))
    else JNum.num 0
  let normal1 := !c1
  -- Check 2: energyVariance > NORMAL_VARIANCE_MAX (0.0005)
  let c2 := JNum.gt energyVariance (JNum.num (5/10000))
  let sev2 := JNum.minJ (JNum.num 100)
    (JNum.mul (JNum.div (JNum.sub energyVariance (JNum.num (5/10000))) (JNum.num (5/10000)))
      (JNum.num 80))
  let queue2 := if c2 then
      queue1.enqueue ⟨AbnType.irregular, "Irregular breathing rhythm detected",
        JNum.round (JNum.maxJ (JNum.num 30) sev2)⟩ sev2
    else queue1
  let score2 := if c2 then JNum.add score1 (JNum.mul sev2 (JNum.num (35/100))) else score1
  let normal2 := normal1 && !c2
  -- Check 3: breathingRate outside [10, 18]
  let c3 := JNum.lt breathingRate (JNum.num 10) || JNum.gt breathingRate (JNum.num 18)
  let sev3 := if JNum.lt breathingRate (JNum.num 10) then
      JNum.mul (JNum.div (JNum.sub (JNum.num 10) breathingRate) (JNum.num 10)) (JNum.num 70)
    else
      JNum.mul (JNum.div (JNum.sub breathingRate (JNum.num 18)) (JNum.num 18)) (JNum.num 80)
  let desc3 := if JNum.lt breathingRate (JNum.num 10) then "Slow breathing rate (Bradypnea)"
    else "Rapid breathing rate (Tachypnea)"
  let queue3 := if c3 then
      queue2.enqueue ⟨AbnType.shortness, desc3,
        JNum.round (JNum.maxJ (JNum.num 25) (JNum.minJ (JNum.num 100) sev3))⟩ sev3
    else queue2
  let score3 := if c3 then JNum.add score2 (JNum.mul sev3 (JNum.num (3/10))) else score2
  let normal3 := normal2 && !c3
  -- Check 4: avgRMS < MIN_SIGNAL_THRESHOLD (0.008) or avgEnergy < 0.00005.
  -- Note: this check does not touch isNormal.
  let c4 := JNum.lt avgRMS (JNum.num (8/1000)) || JNum.lt avgEnergy (JNum.num (5/100000))
  let queue4 := if c4 then
      queue3.enqueue ⟨AbnType.noise, "Poor signal quality / Environmental noise",
        JNum.num 35⟩ (JNum.num 35)
    else queue3
  let score4 := if c4 then JNum.add score3 (JNum.num 15) else score3
  -- Check 5: energy spikes (frame energy > 3x previous frame energy)
  let energySpikes := (windowFeatures.zip windowFeatures.tail).countP
    (fun pr => JNum.gt pr.2.energy (JNum.mul pr.1.energy (JNum.num 3)))
  let c5 := 3 < windowFeatures.length && 1 < energySpikes
  let sev5 := JNum.minJ (JNum.num 80) (JNum.num ((energySpikes : ℚ) * 20))
  let queue5 := if c5 then
      queue4.enqueue ⟨AbnType.irregular, "Sudden energy spikes (cough/gasp pattern)",
        JNum.round sev5⟩ sev5
    else queue4
  let score5 := if c5 then JNum.add score4 (JNum.mul sev5 (JNum.num (25/100))) else score4
  let normal5 := normal3 && !c5
  (normal5, score5, queue5)

/-- `classifyBreathing(featureMap, abnormalityQueue)`: runs the five
checks of `classifyChecks` and assembles the classification record,
returning it together with the final queue contents. -/
def classifyBreathing (fm : Features) (queue0 : PriorityQueue AbnEvent) :
    ClassificationResult × PriorityQueue AbnEvent :=
  let checks := classifyChecks fm queue0
  let isNormal := checks.1
  let abnormalityScore := checks.2.1
  let queue5 := checks.2.2
  let stabilityScore := JNum.maxJ (JNum.num 0)
    (JNum.sub (JNum.num 100) (JNum.mul fm.energyVariance (JNum.num 15000)))
  if isNormal && JNum.lt abnormalityScore (JNum.num 20) then
    let isDeepBreathing := JNum.gt fm.avgRMS (JNum.num (6/100))
      && JNum.lt fm.breathingRate (JNum.num 14)
    let isSlowBreathing := JNum.lt fm.avgRMS (JNum.num (6/100))
      && JNum.lt fm.breathingRate (JNum.num 12)
    ({ status := Status.normal
       breathingType := some (if isDeepBreathing then BreathingType.deep
         else if isSlowBreathing then BreathingType.slow else BreathingType.regular)
       abnormalityConfidence := none
       stabilityScore := JNum.round stabilityScore
       lungComfort := if JNum.gt stabilityScore (JNum.num 80) then "Good"
         else if JNum.gt stabilityScore (JNum.num 60) then "Moderate" else "Fair"
       confidenceScore := JNum.round (JNum.maxJ (JNum.num 75)
         (JNum.sub (JNum.num 100) abnormalityScore)) }, queue5)
  else
    let queue6 := if queue5.isEmpty && JNum.gt abnormalityScore (JNum.num 0) then
        queue5.enqueue ⟨AbnType.irregular, "General breathing irregularity",
          JNum.round (JNum.minJ (JNum.num 100) abnormalityScore)⟩ abnormalityScore
      else queue5
    ({ status := Status.abnormal
       breathingType := none
       abnormalityConfidence := some (JNum.round (JNum.minJ (JNum.num 100)
         (JNum.maxJ (JNum.num 30) abnormalityScore)))
       stabilityScore := JNum.round stabilityScore
       lungComfort := "Needs Attention"
       confidenceScore := JNum.round (JNum.minJ (JNum.num 95)
         (JNum.add abnormalityScore (JNum.num 35))) }, queue6)

/-!
## Main engine (`function analyzeBreathing`)
-/

structure AnalysisResult where
  features : Features
  classification : ClassificationResult
  abnormalities : List (AbnEvent × JNum)
  windowFeatures : List Window
  peaks : List Peak

/-- `analyzeBreathing(audioData, sampleRate)` (the source default for
`sampleRate` is `16000`; theorems pass it explicitly). -/
def analyzeBreathing (f c s : ℚ → ℚ) (audioData : List ℚ) (sampleRate : ℚ) :
    AnalysisResult :=
  let cleanedSignal := removeNoise audioData (1/50)
  let windowSize := (⌊sampleRate * (5/10)⌋ : ℤ).toNat
  let hopSize := windowSize / 2
  let windowFeatures := slidingWindowAnalysis f c s cleanedSignal windowSize hopSize sampleRate
  let avgEnergy := JNum.div
    (windowFeatures.foldl (fun sum w => JNum.add sum w.energy) (JNum.num 0))
    (JNum.num (windowFeatures.length : ℚ))
  let avgRMS := JNum.div
    (windowFeatures.foldl (fun sum w => JNum.add sum w.rms) (JNum.num 0))
    (JNum.num (windowFeatures.length : ℚ))
  let avgZCR := JNum.div
    (windowFeatures.foldl (fun sum w => JNum.add sum w.zcr) (JNum.num 0))
    (JNum.num (windowFeatures.length : ℚ))
  let avgDominantFreq := JNum.div
    (windowFeatures.foldl (fun sum w => JNum.add sum w.dominantFreq) (JNum.num 0))
    (JNum.num (windowFeatures.length : ℚ))
  let energyVariance := JNum.div
    (windowFeatures.foldl (fun sum w => JNum.add sum (JNum.sq (JNum.sub w.energy avgEnergy)))
      (JNum.num 0))
    (JNum.num (windowFeatures.length : ℚ))
  let envelope := windowFeatures.map Window.rms
  let peaks := detectPeaks envelope (JNum.mul avgRMS (JNum.num (5/10)))
  let durationSeconds := JNum.div (JNum.num (audioData.length : ℚ)) (JNum.num sampleRate)
  let breathingRate := if 1 < peaks.length then
      JNum.mul (JNum.div (JNum.num (peaks.length : ℚ)) durationSeconds) (JNum.num 60)
    else JNum.num 12
  let features : Features :=
    { avgEnergy := avgEnergy, avgRMS := avgRMS, avgZCR := avgZCR
      avgDominantFreq := avgDominantFreq, energyVariance := energyVariance
      breathingRate := breathingRate, peakCount := peaks.length
      windowFeatures := windowFeatures }
  let cls := classifyBreathing features (PriorityQueue.new AbnEvent)
  { features := features
    classification := cls.1
    abnormalities := cls.2.getAll
    windowFeatures := windowFeatures
    peaks := peaks }

/-!
# Claims

The theorems below settle the frozen claims C1–C10 about the engine.
Helper lemmas precede the claim theorems.
-/

/-!
## Equation lemmas for `JNum`

Kernel reduction of `ℚ` is blocked by `Nat.gcd`, so concrete rational
computations below go through `simp`/`norm_num` using these definitional
equations.
-/

@[simp] theorem JNum.add_num (a b : ℚ) : JNum.add (JNum.num a) (JNum.num b) = JNum.num (a + b) := rfl

@[simp] theorem JNum.sub_num (a b : ℚ) : JNum.sub (JNum.num a) (JNum.num b) = JNum.num (a - b) := rfl

@[simp] theorem JNum.mul_num (a b : ℚ) : JNum.mul (JNum.num a) (JNum.num b) = JNum.num (a * b) := rfl

@[simp] theorem JNum.div_num (a b : ℚ) :
    JNum.div (JNum.num a) (JNum.num b) = if b = 0 then JNum.nan else JNum.num (a / b) := rfl

@[simp] theorem JNum.lt_num (a b : ℚ) : JNum.lt (JNum.num a) (JNum.num b) = decide (a < b) := rfl

@[simp] theorem JNum.gt_num (a b : ℚ) : JNum.gt (JNum.num a) (JNum.num b) = decide (b < a) := rfl

@[simp] theorem JNum.lt_nan (x : JNum) : JNum.lt JNum.nan x = false := rfl

@[simp] theorem JNum.lt_nan_right (x : JNum) : JNum.lt x JNum.nan = false := by
  cases x <;> rfl

@[simp] theorem JNum.gt_nan (x : JNum) : JNum.gt JNum.nan x = false := rfl

@[simp] theorem JNum.gt_nan_right (x : JNum) : JNum.gt x JNum.nan = false := by
  cases x <;> rfl

@[simp] theorem JNum.maxJ_num (a b : ℚ) :
    JNum.maxJ (JNum.num a) (JNum.num b) = JNum.num (max a b) := rfl

@[simp] theorem JNum.minJ_num (a b : ℚ) :
    JNum.minJ (JNum.num a) (JNum.num b) = JNum.num (min a b) := rfl

@[simp] theorem JNum.round_num (a : ℚ) : JNum.round (JNum.num a) = JNum.num ((⌊a + 1/2⌋ : ℤ) : ℚ) := rfl

@[simp] theorem JNum.sq_num (a : ℚ) : JNum.sq (JNum.num a) = JNum.num (a * a) := rfl

@[simp] theorem JNum.sqrtJ_num (f : ℚ → ℚ) (a : ℚ) :
    JNum.sqrtJ f (JNum.num a) = if a < 0 then JNum.nan else JNum.num (f a) := rfl

@[simp] theorem JNum.add_nan (x : JNum) : JNum.add JNum.nan x = JNum.nan := rfl

@[simp] theorem JNum.add_nan_right (x : JNum) : JNum.add x JNum.nan = JNum.nan := by
  cases x <;> rfl

@[simp] theorem JNum.sqrtJ_nan (f : ℚ → ℚ) : JNum.sqrtJ f JNum.nan = JNum.nan := rfl

/-!
## Helper lemmas
-/

/-- The sliding-window loop yields no frame as soon as its entry
condition fails, independent of the remaining fuel. -/
theorem slideLoop_nil (f c s : ℚ → ℚ) (signal : List ℚ) (W hop : ℕ) (r : ℚ)
    (fuel start : ℕ) (h : ¬ start + W < signal.length) :
    slideLoop f c s signal W hop r fuel start = [] := by
  cases fuel with
  | zero => rfl
  | succ n => simp [slideLoop, h]

/-!
## Claims
-/

/-- C4.  The claim asserts that the zero-crossing-rate computation guards
its division and returns `0` for frames of length `≤ 1`.  The code has no
such guard: a single-sample frame evaluates `0 / (1 - 1) = 0/0 = NaN`.
(The zero-length frame evaluates `0 / (0 - 1) = 0`, so only the
single-sample case diverges from the claim.)  This theorem evaluates
`calculateZCR` at the failing input `[0.5]`. -/
theorem calculateZCR_single_sample_is_nan :
    calculateZCR [(1 : ℚ)/2] = JNum.nan ∧ calculateZCR ([] : List ℚ) = JNum.num 0 := by
  constructor
  · simp [calculateZCR, countCrossings]
  · simp [calculateZCR, countCrossings]

/-- An empty Frame-Features sequence makes every aggregate mean `0/0`,
hence `NaN` — there is no emptiness guard in `analyzeBreathing`. -/
theorem analyzeBreathing_no_frames (f c s : ℚ → ℚ) (audioData : List ℚ) (sampleRate : ℚ)
    (h : slidingWindowAnalysis f c s (removeNoise audioData (1/50))
        ((⌊sampleRate * (5/10)⌋ : ℤ).toNat) ((⌊sampleRate * (5/10)⌋ : ℤ).toNat / 2) sampleRate
        = []) :
    (analyzeBreathing f c s audioData sampleRate).features.avgEnergy = JNum.nan
    ∧ (analyzeBreathing f c s audioData sampleRate).features.avgRMS = JNum.nan
    ∧ (analyzeBreathing f c s audioData sampleRate).features.avgZCR = JNum.nan
    ∧ (analyzeBreathing f c s audioData sampleRate).features.avgDominantFreq = JNum.nan
    ∧ (analyzeBreathing f c s audioData sampleRate).features.energyVariance = JNum.nan := by
  refine ⟨?_, ?_, ?_, ?_, ?_⟩ <;>
    simp only [analyzeBreathing, h, List.foldl_nil, List.length_nil, Nat.cast_zero,
      JNum.div_num] <;> simp

/-- C2.  The claim asserts that the aggregate means over an empty
Frame-Features sequence are guarded to `0`.  The code divides the
`reduce` sums by `windowFeatures.length` without any guard, so a
recording shorter than one analysis window (here 100 samples at 16 kHz,
so that the 8000-sample window never fits) makes all five aggregates
`0/0 = NaN`. -/
theorem analyzeBreathing_short_recording_nan :
    (analyzeBreathing id id id (List.replicate 100 ((1 : ℚ)/10)) 16000).features.avgEnergy
        = JNum.nan
    ∧ (analyzeBreathing id id id (List.replicate 100 ((1 : ℚ)/10)) 16000).features.avgRMS
        = JNum.nan
    ∧ (analyzeBreathing id id id (List.replicate 100 ((1 : ℚ)/10)) 16000).features.avgZCR
        = JNum.nan
    ∧ (analyzeBreathing id id id
        (List.replicate 100 ((1 : ℚ)/10)) 16000).features.avgDominantFreq = JNum.nan
    ∧ (analyzeBreathing id id id
        (List.replicate 100 ((1 : ℚ)/10)) 16000).features.energyVariance = JNum.nan := by
  apply analyzeBreathing_no_frames
  have hfloor : ((⌊(16000 : ℚ) * (5/10)⌋ : ℤ).toNat) = 8000 := by
    norm_num
    rfl
  rw [hfloor]
  apply slideLoop_nil
  have hlen : (removeNoise (List.replicate 100 ((1 : ℚ)/10)) (1/50)).length = 100 := by
    simp [removeNoise]
  rw [hlen]
  decide

/-- C5 counterexample.  The claim asserts that constructing a ring buffer
with capacity `0` fails.  The constructor performs no validation: applied
to `0` it succeeds and yields a zero-capacity, empty buffer — which can
then be pushed into. -/
theorem circularBuffer_capacity_zero_constructible :
    (CircularBuffer.new 0).size = 0 ∧ (CircularBuffer.new 0).count = 0 := ⟨rfl, rfl⟩

/-- C5 amended.  Construction never fails: for every requested capacity
`n`, including `0`, the constructor returns an empty buffer of exactly
that capacity, with `head = tail = count = 0` and a zero-initialised
backing store; no rejection of capacity `0` exists. -/
theorem circularBuffer_new_unvalidated (n : ℕ) :
    (CircularBuffer.new n).size = n ∧ (CircularBuffer.new n).count = 0
    ∧ (CircularBuffer.new n).head = 0 ∧ (CircularBuffer.new n).tail = 0
    ∧ ∀ i, (CircularBuffer.new n).buffer i = 0 :=
  ⟨rfl, rfl, rfl, rfl, fun _ => rfl⟩

/-- C9 counterexample.  The claim asserts that a sample whose absolute
value equals the threshold `0.02` exactly is left unchanged.  The gate
keeps only samples with `|x| > threshold` (strict), so the sample
`1/50 = 0.02` is zeroed, and `1/50 ≠ 0`. -/
theorem removeNoise_at_threshold_zeroed :
    removeNoise [(1 : ℚ)/50] (1/50) = [0] ∧ (1 : ℚ)/50 ≠ 0 := by
  constructor
  · simp [removeNoise, abs_of_pos]
  · norm_num

/-- C9 amended.  The gate outputs `0` at position `i` exactly when the
absolute value of the input sample is less than or equal to the threshold
`0.02`, and leaves the sample unchanged when it is strictly greater; in
particular a sample whose absolute value equals the threshold exactly is
zeroed, not kept. -/
theorem removeNoise_gate (signal : List ℚ) (i : ℕ) :
    (removeNoise signal (1/50)).getD i 0
      = if 1/50 < |signal.getD i 0| then signal.getD i 0 else 0 := by
  simp only [removeNoise, List.getD_eq_getElem?_getD, List.getElem?_map]
  cases h : signal[i]? with
  | none => simp
  | some x => simp

/-- One step of the ceiling-division count used by `slideCount`. -/
theorem ceilDiv_pos_step (D h : ℕ) (hh : 0 < h) (hD : 0 < D) :
    (D + h - 1) / h = ((D - h) + h - 1) / h + 1 := by
  rcases le_or_lt D h with hle | hlt
  · have h1 : D - h = 0 := by omega
    rw [h1]
    rw [Nat.div_eq_of_lt (by omega : 0 + h - 1 < h)]
    have h2 : D + h - 1 = (D - 1) + h := by omega
    rw [h2, Nat.add_div_right _ hh, Nat.div_eq_of_lt (by omega : D - 1 < h)]
  · have h2 : D + h - 1 = ((D - h) + h - 1) + h := by omega
    rw [h2, Nat.add_div_right _ hh]

/-- Membership bound for the ceiling-division count. -/
theorem lt_ceilDiv_iff (k D h : ℕ) (hh : 0 < h) : k < (D + h - 1) / h ↔ k * h < D := by
  have key : ∀ m, m + h ≤ D + h - 1 ↔ m < D := by intro m; omega
  constructor
  · intro hk
    have h2 : k + 1 ≤ (D + h - 1) / h := hk
    rw [Nat.le_div_iff_mul_le hh] at h2
    rw [Nat.succ_mul] at h2
    exact (key (k * h)).mp h2
  · intro hk
    have h2 : (k + 1) * h ≤ D + h - 1 := by
      rw [Nat.succ_mul]
      exact (key (k * h)).mpr hk
    exact (Nat.le_div_iff_mul_le hh).mpr h2

/-- Characterization of the sliding-window loop: from counter `start`
with sufficient fuel it visits exactly the offsets
`start, start + hop, start + 2·hop, …` whose window still fits strictly
inside the signal. -/
theorem slideLoop_starts (f c s : ℚ → ℚ) (signal : List ℚ) (W hop : ℕ) (r : ℚ)
    (hhop : 0 < hop) :
    ∀ (fuel start : ℕ), signal.length ≤ start + fuel →
      (slideLoop f c s signal W hop r fuel start).map Window.startSample
        = (List.range (slideCount (signal.length - start) W hop)).map
            (fun k => start + k * hop) := by
  intro fuel
  induction fuel with
  | zero =>
    intro start hle
    have hz : signal.length - start = 0 := by omega
    simp [slideLoop, slideCount, hz]
    exact Nat.div_eq_of_lt (by omega)
  | succ n ih =>
    intro start hle
    by_cases hc : start + W < signal.length
    · rw [slideLoop, if_pos hc, List.map_cons, ih (start + hop) (by omega)]
      have hD : 0 < signal.length - start - W := by omega
      have step := ceilDiv_pos_step (signal.length - start - W) hop hhop hD
      have harg : signal.length - start - W - hop = signal.length - (start + hop) - W := by omega
      rw [harg] at step
      show (mkWindow f c s signal W r start).startSample :: _ = _
      dsimp only [slideCount]
      rw [step, List.range_succ_eq_map, List.map_cons, List.map_map]
      congr 1
      · simp [mkWindow]
      · apply List.map_congr_left
        intro k _
        simp only [Function.comp_apply, Nat.succ_eq_add_one]
        ring
    · rw [slideLoop, if_neg hc]
      have hz : signal.length - start - W = 0 := by omega
      have hz2 : signal.length - start - W + hop - 1 < hop := by omega
      simp [slideCount, Nat.div_eq_of_lt hz2]

/-- C3 counterexample.  The claim asserts that when the signal length
equals the window size exactly, one frame is produced.  The loop guard is
strict (`start < signal.length - windowSize`), so a two-sample signal
with `windowSize = 2` produces no frame at all. -/
theorem slidingWindowAnalysis_equal_length_no_frame :
    ¬ (slidingWindowAnalysis id id id [(1 : ℚ), 2] 2 1 16000).length = 1 := by
  have h : slidingWindowAnalysis id id id [(1 : ℚ), 2] 2 1 16000 = [] := by
    rw [slidingWindowAnalysis]
    exact slideLoop_nil _ _ _ _ _ _ _ _ _ (by decide)
  rw [h]
  simp

/-- Offset characterisation of the sliding-window pipeline, used both by
the C3 claim theorem and by concrete evaluations. -/
theorem slidingWindowAnalysis_starts (f c s : ℚ → ℚ) (signal : List ℚ) (W hop : ℕ) (r : ℚ)
    (_hW : 0 < W) (hhop : 0 < hop) :
    (slidingWindowAnalysis f c s signal W hop r).map Window.startSample
      = (List.range (slideCount signal.length W hop)).map (fun k => k * hop)
    ∧ (∀ k : ℕ, k * hop ∈ (slidingWindowAnalysis f c s signal W hop r).map Window.startSample
        ↔ k * hop + W < signal.length)
    ∧ (signal.length = W → slidingWindowAnalysis f c s signal W hop r = []) := by
  have off : ∀ m, m < signal.length - W ↔ m + W < signal.length := by intro m; omega
  have h1 : (slidingWindowAnalysis f c s signal W hop r).map Window.startSample
      = (List.range (slideCount signal.length W hop)).map (fun k => k * hop) := by
    rw [slidingWindowAnalysis]
    have h := slideLoop_starts f c s signal W hop r hhop signal.length 0 (by omega)
    simpa using h
  refine ⟨h1, ?_, ?_⟩
  · intro k
    rw [h1]
    constructor
    · intro hk
      rw [List.mem_map] at hk
      obtain ⟨j, hj, hjk⟩ := hk
      rw [List.mem_range] at hj
      have hjeq : j = k := Nat.eq_of_mul_eq_mul_right hhop hjk
      subst hjeq
      dsimp only [slideCount] at hj
      exact (off _).mp ((lt_ceilDiv_iff j (signal.length - W) hop hhop).mp hj)
    · intro hk
      rw [List.mem_map]
      refine ⟨k, ?_, rfl⟩
      rw [List.mem_range]
      dsimp only [slideCount]
      exact (lt_ceilDiv_iff k (signal.length - W) hop hhop).mpr ((off _).mpr hk)
  · intro hLW
    rw [slidingWindowAnalysis]
    exact slideLoop_nil _ _ _ _ _ _ _ _ _ (by omega)

/-- C3 amended.  For every signal and positive `windowSize` and
`hopSize`, the pipeline produces exactly the frames at offsets
`0, hop, 2·hop, …` for every offset with `start + windowSize <
signalLength` (strictly; the spec's `≤` bound is off by one), in offset
order, dropping any final partial frame; when `signalLength` equals
`windowSize` exactly, no frame is produced. -/
theorem slidingWindowAnalysis_frames (f c s : ℚ → ℚ) (signal : List ℚ) (W hop : ℕ) (r : ℚ)
    (hW : 0 < W) (hhop : 0 < hop) :
    (slidingWindowAnalysis f c s signal W hop r).map Window.startSample
      = (List.range (slideCount signal.length W hop)).map (fun k => k * hop)
    ∧ (∀ k : ℕ, k * hop ∈ (slidingWindowAnalysis f c s signal W hop r).map Window.startSample
        ↔ k * hop + W < signal.length)
    ∧ (signal.length = W → slidingWindowAnalysis f c s signal W hop r = []) :=
  slidingWindowAnalysis_starts f c s signal W hop r hW hhop

/-- C3 amended, witness: a three-sample signal with window 2 and hop 1
has exactly one frame, at offset 0; the offset `0` satisfies the strict
bound `0 + 2 < 3`. -/
theorem slidingWindowAnalysis_frames_witness :
    (slidingWindowAnalysis id id id [(1 : ℚ), 2, 3] 2 1 16000).map Window.startSample = [0]
    ∧ ((0 * 1 : ℕ) ∈ (slidingWindowAnalysis id id id
        [(1 : ℚ), 2, 3] 2 1 16000).map Window.startSample ↔ 0 * 1 + 2 < [(1 : ℚ), 2, 3].length) := by
  have h := slidingWindowAnalysis_frames id id id [(1 : ℚ), 2, 3] 2 1 16000
    (by decide) (by decide)
  refine ⟨?_, h.2.1 0⟩
  rw [h.1]
  decide

/-- Inversion of the JavaScript strict comparison: `x > y` holds exactly
when both sides are real numbers with `y < x`. -/
theorem JNum.gt_eq_true_iff (x y : JNum) :
    JNum.gt x y = true ↔ ∃ a b : ℚ, x = JNum.num a ∧ y = JNum.num b ∧ b < a := by
  cases x <;> cases y <;> simp [JNum.gt]

/-- Every member of an enqueue result is either an old item or the new
one. -/
theorem mem_insertItem {α : Type} (l : List (PQItem α)) (x z : PQItem α)
    (hz : z ∈ insertItem l x) : z ∈ l ∨ z = x := by
  induction l with
  | nil =>
    simp [insertItem] at hz
    right; exact hz
  | cons y ys ih =>
    rw [insertItem] at hz
    by_cases h : JNum.gt x.priority y.priority = true
    · rw [if_pos h] at hz
      rcases List.mem_cons.mp hz with rfl | hz2
      · right; rfl
      · left; exact hz2
    · rw [if_neg h] at hz
      rcases List.mem_cons.mp hz with rfl | hz2
      · left; exact List.mem_cons_self _ _
      · rcases ih hz2 with h3 | h3
        · left; exact List.mem_cons_of_mem _ h3
        · right; exact h3

/-- Splice characterization of `enqueue`: the new item lands immediately
before the first existing item of strictly lower priority (the prefix of
items that are not strictly lower is kept, in order, in front of it). -/
theorem insertItem_splice {α : Type} (l : List (PQItem α)) (x : PQItem α) :
    insertItem l x
      = l.takeWhile (fun y => !(JNum.gt x.priority y.priority))
        ++ x :: l.dropWhile (fun y => !(JNum.gt x.priority y.priority)) := by
  induction l with
  | nil => simp [insertItem]
  | cons y ys ih =>
    by_cases h : JNum.gt x.priority y.priority = true
    · rw [insertItem, if_pos h, List.takeWhile_cons, List.dropWhile_cons]
      simp [h]
    · have hb : JNum.gt x.priority y.priority = false := by simpa using h
      rw [insertItem, if_neg h, List.takeWhile_cons, List.dropWhile_cons]
      simp [hb, ih]

/-- `enqueue` preserves the "no later item is strictly greater"
invariant of the item list. -/
theorem pairwise_insertItem {α : Type} (l : List (PQItem α)) (x : PQItem α)
    (hl : l.Pairwise (fun i j => JNum.gt j.priority i.priority = false)) :
    (insertItem l x).Pairwise (fun i j => JNum.gt j.priority i.priority = false) := by
  induction l with
  | nil => simp [insertItem]
  | cons y ys ih =>
    rw [List.pairwise_cons] at hl
    obtain ⟨hy, hys⟩ := hl
    by_cases h : JNum.gt x.priority y.priority = true
    · rw [insertItem, if_pos h]
      obtain ⟨px, py, hx, hyp, hlt⟩ := (JNum.gt_eq_true_iff _ _).mp h
      rw [List.pairwise_cons]
      refine ⟨?_, List.pairwise_cons.mpr ⟨hy, hys⟩⟩
      intro z hz
      rcases List.mem_cons.mp hz with rfl | hz2
      · rw [hyp, hx]
        simp
        linarith
      · have hyz := hy z hz2
        cases hz3 : z.priority with
        | nan => exact JNum.gt_nan _
        | num pz =>
          rw [hx]
          rw [hz3, hyp] at hyz
          simp at hyz ⊢
          linarith
    · have hb : JNum.gt x.priority y.priority = false := by simpa using h
      rw [insertItem, if_neg h, List.pairwise_cons]
      refine ⟨?_, ih hys⟩
      intro z hz
      rcases mem_insertItem ys x z hz with hz2 | rfl
      · exact hy z hz2
      · exact hb

/-- The item list built by any insertion history satisfies the
"no later item is strictly greater" invariant. -/
theorem insertAll_pairwise {α : Type} (xs : List (α × ℚ)) :
    (insertAll xs).items.Pairwise (fun i j => JNum.gt j.priority i.priority = false) := by
  induction xs using List.reverseRecOn with
  | nil => simp [insertAll, PriorityQueue.new]
  | append_singleton xs ep ih =>
    have hstep : (insertAll (xs ++ [ep])).items
        = insertItem (insertAll xs).items ⟨ep.1, JNum.num ep.2⟩ := by
      simp [insertAll, List.foldl_append, PriorityQueue.enqueue]
    rw [hstep]
    exact pairwise_insertItem _ _ ih

/-- Filtering an enqueue result at a fixed real priority `q`: if the new
item has priority `q` it lands at the end of the equal-priority run, and
otherwise the filter result is unchanged.  Requires the invariant that no
later item of the list is strictly greater. -/
theorem filter_insertItem {α : Type} (l : List (PQItem α)) (x : PQItem α) (q : ℚ)
    (hsort : l.Pairwise (fun i j => JNum.gt j.priority i.priority = false)) :
    (insertItem l x).filter (fun i => decide (i.priority = JNum.num q))
      = if x.priority = JNum.num q
        then l.filter (fun i => decide (i.priority = JNum.num q)) ++ [x]
        else l.filter (fun i => decide (i.priority = JNum.num q)) := by
  induction l with
  | nil =>
    by_cases hxq : x.priority = JNum.num q <;> simp [insertItem, List.filter, hxq]
  | cons y ys ih =>
    rw [List.pairwise_cons] at hsort
    obtain ⟨hy, hys⟩ := hsort
    by_cases h : JNum.gt x.priority y.priority = true
    · rw [insertItem, if_pos h]
      obtain ⟨px, py, hx, hyp, hlt⟩ := (JNum.gt_eq_true_iff _ _).mp h
      by_cases hxq : x.priority = JNum.num q
      · rw [if_pos hxq]
        have hpxq : px = q := by
          rw [hx] at hxq
          exact JNum.num.inj hxq
        have hnil : (y :: ys).filter (fun i => decide (i.priority = JNum.num q)) = [] := by
          rw [List.filter_eq_nil_iff]
          intro z hz
          simp only [decide_eq_true_eq]
          rcases List.mem_cons.mp hz with rfl | hz2
          · rw [hyp]
            intro hcon
            have : py = q := JNum.num.inj hcon
            linarith [hlt, hpxq ▸ hlt]
          · have hyz := hy z hz2
            cases hz3 : z.priority with
            | nan => simp
            | num pz =>
              rw [hz3, hyp] at hyz
              simp at hyz
              intro hcon
              have : pz = q := JNum.num.inj hcon
              subst this
              subst hpxq
              linarith
        rw [List.filter_cons_of_pos (by simp [hxq]), hnil]
        rfl
      · rw [if_neg hxq]
        rw [List.filter_cons_of_neg (by simp [hxq])]
    · have hb : JNum.gt x.priority y.priority = false := by simpa using h
      rw [insertItem, if_neg h, List.filter_cons, ih hys, List.filter_cons]
      by_cases hxq : x.priority = JNum.num q
      · rw [if_pos hxq, if_pos hxq]
        split <;> simp
      · rw [if_neg hxq, if_neg hxq]

/-- C7.  Severity Ranking Structure ordering: (1) each `enqueue` splices
the new item immediately before the first existing item of strictly
lower priority; (2) after any sequence of `(event, priority)` insertions
the item sequence is sorted non-increasingly in priority; (3) the events
holding any fixed priority appear in exactly their insertion order
(stable ties). -/
theorem priorityQueue_enqueue_ordering (α : Type) :
    (∀ (l : List (PQItem α)) (x : PQItem α),
        insertItem l x
          = l.takeWhile (fun y => !(JNum.gt x.priority y.priority))
            ++ x :: l.dropWhile (fun y => !(JNum.gt x.priority y.priority)))
    ∧ (∀ xs : List (α × ℚ),
        (insertAll xs).items.Pairwise
          (fun i j => ∀ a b : ℚ, i.priority = JNum.num a → j.priority = JNum.num b → b ≤ a))
    ∧ (∀ (xs : List (α × ℚ)) (q : ℚ),
        ((insertAll xs).items.filter
            (fun i => decide (i.priority = JNum.num q))).map PQItem.element
          = (xs.filter (fun ep => decide (ep.2 = q))).map Prod.fst) := by
  refine ⟨insertItem_splice, ?_, ?_⟩
  · intro xs
    refine (insertAll_pairwise xs).imp ?_
    intro i j hij a b ha hb
    rw [ha, hb] at hij
    simp at hij
    exact hij
  · intro xs q
    induction xs using List.reverseRecOn with
    | nil => simp [insertAll, PriorityQueue.new]
    | append_singleton xs ep ih =>
      have hstep : (insertAll (xs ++ [ep])).items
          = insertItem (insertAll xs).items ⟨ep.1, JNum.num ep.2⟩ := by
        simp [insertAll, List.foldl_append, PriorityQueue.enqueue]
      rw [hstep, filter_insertItem _ _ _ (insertAll_pairwise xs), List.filter_append]
      by_cases hpq : ep.2 = q
      · rw [if_pos (by simp [hpq])]
        simp [hpq, ih]
      · rw [if_neg (by simp [hpq])]
        simp [hpq, ih]

/-- The `detectPeaks` loop stops as soon as the counter reaches
`length − 1`. -/
theorem detectFrom_stop (signal : List JNum) (threshold : JNum) (minDist i : ℕ)
    (peaks : List Peak) (h : ¬ i + 1 < signal.length) :
    detectFrom signal threshold minDist i peaks = peaks := by
  rw [detectFrom]
  simp [h]

/-- One unfolding of the `detectPeaks` loop. -/
theorem detectFrom_step (signal : List JNum) (threshold : JNum) (minDist i : ℕ)
    (peaks : List Peak) (h : i + 1 < signal.length) :
    detectFrom signal threshold minDist i peaks
      = detectFrom signal threshold minDist (i + 1)
          (if isPeakAt signal threshold i then
            match peaks.getLast? with
            | none => peaks ++ [⟨i, signal.getD i JNum.nan⟩]
            | some lastPk =>
              if minDist < i - lastPk.index then peaks ++ [⟨i, signal.getD i JNum.nan⟩]
              else peaks
          else peaks) := by
  rw [detectFrom]
  simp [h]

/-- Soundness and spacing of the `detectPeaks` loop: every accepted peak
is a genuine peak strictly inside the scan range, and consecutive
accepted peaks are more than `minDist` apart. -/
theorem detectFrom_sound (signal : List JNum) (threshold : JNum) (minDist : ℕ) :
    ∀ (n i : ℕ) (peaks : List Peak), signal.length ≤ i + n → 1 ≤ i →
      (∀ pk ∈ peaks, pk.index < i ∧ 1 ≤ pk.index ∧ pk.index + 1 < signal.length
        ∧ isPeakAt signal threshold pk.index = true
        ∧ pk.value = signal.getD pk.index JNum.nan) →
      peaks.Chain' (fun a b => a.index + minDist < b.index) →
      (∀ pk ∈ detectFrom signal threshold minDist i peaks,
          1 ≤ pk.index ∧ pk.index + 1 < signal.length
          ∧ isPeakAt signal threshold pk.index = true
          ∧ pk.value = signal.getD pk.index JNum.nan)
      ∧ (detectFrom signal threshold minDist i peaks).Chain'
          (fun a b => a.index + minDist < b.index) := by
  intro n
  induction n with
  | zero =>
    intro i peaks hle h1 hmem hchain
    rw [detectFrom_stop _ _ _ _ _ (by omega)]
    exact ⟨fun pk hpk => (hmem pk hpk).2, hchain⟩
  | succ n ih =>
    intro i peaks hle h1 hmem hchain
    by_cases h : i + 1 < signal.length
    · rw [detectFrom_step _ _ _ _ _ h]
      by_cases hpk : isPeakAt signal threshold i = true
      · rw [if_pos hpk]
        cases hlast : peaks.getLast? with
        | none =>
          have hempty : peaks = [] := List.getLast?_eq_none_iff.mp hlast
          subst hempty
          dsimp only
          apply ih (i + 1) _ (by omega) (by omega)
          · intro pk hpk2
            simp only [List.nil_append, List.mem_singleton] at hpk2
            subst hpk2
            exact ⟨Nat.lt_succ_self i, h1, h, hpk, rfl⟩
          · exact List.chain'_singleton _
        | some lastPk =>
          dsimp only
          by_cases hacc : minDist < i - lastPk.index
          · rw [if_pos hacc]
            apply ih (i + 1) _ (by omega) (by omega)
            · intro pk hpk2
              rcases List.mem_append.mp hpk2 with hin | hin
              · have hold := hmem pk hin
                exact ⟨by omega, hold.2⟩
              · simp only [List.mem_singleton] at hin
                subst hin
                exact ⟨Nat.lt_succ_self i, h1, h, hpk, rfl⟩
            · rw [List.chain'_append]
              refine ⟨hchain, List.chain'_singleton _, ?_⟩
              intro a ha b hb
              rw [hlast] at ha
              simp only [Option.mem_some_iff] at ha
              simp only [List.head?_cons, Option.mem_some_iff] at hb
              subst ha
              subst hb
              have hlmem : lastPk ∈ peaks := List.mem_of_mem_getLast? (by rw [hlast]; rfl)
              have hidx := (hmem lastPk hlmem).1
              show lastPk.index + minDist < i
              omega
          · rw [if_neg hacc]
            apply ih (i + 1) _ (by omega) (by omega)
            · intro pk hpk2
              have hold := hmem pk hpk2
              exact ⟨by omega, hold.2⟩
            · exact hchain
      · rw [if_neg hpk]
        apply ih (i + 1) _ (by omega) (by omega)
        · intro pk hpk2
          have hold := hmem pk hpk2
          exact ⟨by omega, hold.2⟩
        · exact hchain
    · rw [detectFrom_stop _ _ _ _ _ h]
      exact ⟨fun pk hpk => (hmem pk hpk).2, hchain⟩

/-- When no further index passes the peak test, the loop returns its
accumulator unchanged. -/
theorem detectFrom_no_cand (signal : List JNum) (threshold : JNum) (minDist : ℕ) :
    ∀ (n i : ℕ) (peaks : List Peak), signal.length ≤ i + n →
      (∀ j, i ≤ j → j + 1 < signal.length → isPeakAt signal threshold j = false) →
      detectFrom signal threshold minDist i peaks = peaks := by
  intro n
  induction n with
  | zero =>
    intro i peaks hle hc
    exact detectFrom_stop _ _ _ _ _ (by omega)
  | succ n ih =>
    intro i peaks hle hc
    by_cases h : i + 1 < signal.length
    · rw [detectFrom_step _ _ _ _ _ h, if_neg (by rw [hc i le_rfl h]; simp)]
      exact ih (i + 1) peaks (by omega) (fun j hj hjl => hc j (by omega) hjl)
    · exact detectFrom_stop _ _ _ _ _ h

/-- When exactly one index in the scan range passes the peak test, the
loop started at any counter at or before it returns that single peak. -/
theorem detectFrom_single (signal : List JNum) (threshold : JNum) (minDist m : ℕ)
    (hm1 : 1 ≤ m) (hmlen : m + 1 < signal.length)
    (hcand : ∀ j, 1 ≤ j → j + 1 < signal.length →
      (isPeakAt signal threshold j = true ↔ j = m)) :
    ∀ (n i : ℕ), signal.length ≤ i + n → 1 ≤ i → i ≤ m →
      detectFrom signal threshold minDist i []
        = [⟨m, signal.getD m JNum.nan⟩] := by
  intro n
  induction n with
  | zero =>
    intro i hle h1 him
    exact absurd hmlen (by omega)
  | succ n ih =>
    intro i hle h1 him
    have h : i + 1 < signal.length := by omega
    rw [detectFrom_step _ _ _ _ _ h]
    rcases eq_or_lt_of_le him with heq | hlt
    · subst heq
      have hp : isPeakAt signal threshold i = true := (hcand i h1 h).mpr rfl
      rw [if_pos hp]
      simp only [List.getLast?_nil, List.nil_append]
      apply detectFrom_no_cand _ _ _ n (i + 1) _ (by omega)
      intro j hj hjl
      cases hb : isPeakAt signal threshold j with
      | false => rfl
      | true => exact absurd ((hcand j (by omega) hjl).mp hb) (by omega)
    · have hp : isPeakAt signal threshold i = false := by
        cases hb : isPeakAt signal threshold i with
        | false => rfl
        | true => exact absurd ((hcand i h1 h).mp hb) (by omega)
      rw [if_neg (by rw [hp]; simp)]
      exact ih (i + 1) (by omega) (by omega) (by omega)

/-- Reading a real-valued signal embedded into `JNum` at an in-range
index. -/
theorem getD_map_num (s : List ℚ) (j : ℕ) (h : j < s.length) :
    (s.map JNum.num).getD j JNum.nan = JNum.num (s.getD j 0) := by
  rw [List.getD_eq_getElem?_getD, List.getElem?_map, List.getD_eq_getElem?_getD,
    List.getElem?_eq_getElem h]
  rfl

/-- The peak test over a real-valued signal, in terms of the rational
samples. -/
theorem isPeakAt_map_num (s : List ℚ) (t : ℚ) (j : ℕ) (h1 : 1 ≤ j) (h : j + 1 < s.length) :
    isPeakAt (s.map JNum.num) (JNum.num t) j
      = (decide (s.getD (j - 1) 0 < s.getD j 0) && decide (s.getD (j + 1) 0 < s.getD j 0)
          && decide (t < s.getD j 0)) := by
  unfold isPeakAt
  rw [getD_map_num s j (by omega), getD_map_num s (j - 1) (by omega),
    getD_map_num s (j + 1) (by omega)]
  rfl

/-- C8.  For every real-valued envelope and threshold: (1) every accepted
peak lies at an interior index `1 ≤ i < length − 1`, is strictly greater
than both neighbours, exceeds the threshold, and carries its sample
value; (2) any two accepted peaks are more than `⌊length/20⌋` indices
apart (hence in strictly increasing index order — the greedy left-to-right
scan de-duplicates against the most recently accepted peak); (3) a
unimodal increasing-then-decreasing signal whose interior apex exceeds
the threshold yields exactly one peak, at the apex. -/
theorem detectPeaks_spec (s : List ℚ) (t : ℚ) :
    (∀ pk ∈ detectPeaks (s.map JNum.num) (JNum.num t),
        1 ≤ pk.index ∧ pk.index + 1 < s.length
        ∧ s.getD (pk.index - 1) 0 < s.getD pk.index 0
        ∧ s.getD (pk.index + 1) 0 < s.getD pk.index 0
        ∧ t < s.getD pk.index 0
        ∧ pk.value = JNum.num (s.getD pk.index 0))
    ∧ (detectPeaks (s.map JNum.num) (JNum.num t)).Pairwise
        (fun a b => a.index + s.length / 20 < b.index)
    ∧ (∀ m : ℕ, 1 ≤ m → m + 1 < s.length →
        (∀ j, j < m → s.getD j 0 < s.getD (j + 1) 0) →
        (∀ j, j < s.length → m ≤ j → j + 1 < s.length → s.getD (j + 1) 0 < s.getD j 0) →
        t < s.getD m 0 →
        detectPeaks (s.map JNum.num) (JNum.num t)
          = [⟨m, JNum.num (s.getD m 0)⟩]) := by
  have hlen : (s.map JNum.num).length = s.length := List.length_map _ _
  have main := detectFrom_sound (s.map JNum.num) (JNum.num t)
    ((s.map JNum.num).length / 20) (s.map JNum.num).length 1 []
    (by omega) (by omega) (by simp) List.chain'_nil
  refine ⟨?_, ?_, ?_⟩
  · intro pk hpk
    have hm := main.1 pk hpk
    obtain ⟨hi1, hilen, hcond, hval⟩ := hm
    rw [hlen] at hilen
    rw [isPeakAt_map_num s t pk.index hi1 hilen] at hcond
    simp only [Bool.and_eq_true, decide_eq_true_eq] at hcond
    rw [getD_map_num s pk.index (by omega)] at hval
    exact ⟨hi1, hilen, hcond.1.1, hcond.1.2, hcond.2, hval⟩
  · haveI : IsTrans Peak (fun a b => a.index + s.length / 20 < b.index) :=
      ⟨fun a b c hab hbc => by omega⟩
    rw [← List.chain'_iff_pairwise]
    have h2 := main.2
    rw [hlen] at h2
    rw [detectPeaks, hlen]
    exact h2
  · intro m hm1 hmlen hinc hdec ht
    have hm2 : m + 1 < (s.map JNum.num).length := by omega
    have happ := detectFrom_single (s.map JNum.num) (JNum.num t)
      ((s.map JNum.num).length / 20) m hm1 hm2 ?_ (s.map JNum.num).length 1
      (by omega) (by omega) (by omega)
    · rw [detectPeaks, happ, getD_map_num s m (by omega)]
    · intro j hj1 hjl
      rw [hlen] at hjl
      rw [isPeakAt_map_num s t j hj1 hjl]
      simp only [Bool.and_eq_true, decide_eq_true_eq]
      constructor
      · rintro ⟨⟨hl, hr⟩, hth⟩
        by_contra hne
        rcases lt_or_gt_of_ne hne with hlt | hgt
        · have := hinc j hlt
          linarith
        · have hj1' : j - 1 + 1 = j := by omega
          have := hdec (j - 1) (by omega) (by omega) (by omega)
          rw [hj1'] at this
          linarith
      · rintro rfl
        refine ⟨⟨?_, ?_⟩, ht⟩
        · have hj1' : j - 1 + 1 = j := by omega
          have := hinc (j - 1) (by omega)
          rw [hj1'] at this
          exact this
        · exact hdec j (by omega) le_rfl (by omega)

/-- C8 witness: on the unimodal envelope `[0, 1, 2, 1, 0]` with
threshold `0`, the detector returns exactly the apex peak at index 2
with value 2. -/
theorem detectPeaks_spec_witness :
    detectPeaks ([(0 : ℚ), 1, 2, 1, 0].map JNum.num) (JNum.num 0)
      = [⟨2, JNum.num 2⟩] := by
  have h := (detectPeaks_spec [(0 : ℚ), 1, 2, 1, 0] 0).2.2 2 (by omega)
    (by simp) (by decide) (by decide) (by decide)
  simpa using h

/-- Within one wrap of the modulus, adding `k ≤ C` to a reduced index
returns to the same residue only for `k = 0` or `k = C`. -/
theorem add_mod_self_iff (C head k : ℕ) (hh : head < C) (hk : k ≤ C) :
    (head + k) % C = head ↔ (k = 0 ∨ k = C) := by
  constructor
  · intro h
    rcases lt_or_ge (head + k) C with hlt | hge
    · rw [Nat.mod_eq_of_lt hlt] at h
      omega
    · rw [Nat.mod_eq_sub_mod hge, Nat.mod_eq_of_lt (by omega)] at h
      omega
  · rintro (rfl | rfl)
    · rw [Nat.add_zero, Nat.mod_eq_of_lt hh]
    · rw [Nat.add_mod_right, Nat.mod_eq_of_lt hh]

/-- The materialized view has exactly `count` elements. -/
theorem toArray_length (b : CircularBuffer) : b.toArray.length = b.count := by
  simp [CircularBuffer.toArray]

/-- Reading the materialized view at position `i` reads the backing
store at `(head + i) % size`. -/
theorem toArray_getElem (b : CircularBuffer) (i : ℕ) (h : i < b.toArray.length) :
    b.toArray[i] = b.buffer ((b.head + i) % b.size) := by
  simp [CircularBuffer.toArray]

/-- Optional read of the materialized view. -/
theorem toArray_getElem? (b : CircularBuffer) (i : ℕ) :
    b.toArray[i]? = if i < b.count then some (b.buffer ((b.head + i) % b.size)) else none := by
  by_cases h : i < b.count
  · rw [if_pos h, List.getElem?_eq_getElem (by rw [toArray_length]; exact h), toArray_getElem]
  · rw [if_neg h]
    exact List.getElem?_eq_none (by rw [toArray_length]; omega)

/-- Full state of a ring buffer of capacity `C ≥ 1` after pushing the
sample sequence `s` into a fresh buffer: the counters follow `s.length`
modulo `C`, and `toArray` is exactly the last `min (s.length) C` samples
in push order. -/
theorem pushArray_state (C : ℕ) (hC : 1 ≤ C) (s : List ℚ) :
    ((CircularBuffer.new C).pushArray s).size = C
    ∧ ((CircularBuffer.new C).pushArray s).count = min s.length C
    ∧ ((CircularBuffer.new C).pushArray s).tail = s.length % C
    ∧ ((CircularBuffer.new C).pushArray s).head
        = (if s.length < C then 0 else s.length % C)
    ∧ ((CircularBuffer.new C).pushArray s).toArray = s.drop (s.length - C) := by
  induction s using List.reverseRecOn with
  | nil =>
    refine ⟨rfl, ?_, ?_, ?_, ?_⟩ <;>
      simp [CircularBuffer.pushArray, CircularBuffer.new, CircularBuffer.toArray, hC]
  | append_singleton s v ih =>
    obtain ⟨hsize, hcount, htail, hhead, harr⟩ := ih
    have hstep : (CircularBuffer.new C).pushArray (s ++ [v])
        = ((CircularBuffer.new C).pushArray s).push v := by
      simp [CircularBuffer.pushArray, List.foldl_append]
    rw [hstep]
    set b := (CircularBuffer.new C).pushArray s with hb
    set n := s.length with hn
    have hlapp : (s ++ [v]).length = n + 1 := by simp
    by_cases hlt : n < C
    · -- below capacity: the push appends without eviction
      have hcnt_lt : b.count < b.size := by rw [hcount, hsize]; omega
      have hhead0 : b.head = 0 := by rw [hhead, if_pos hlt]
      have htailn : b.tail = n := by rw [htail, Nat.mod_eq_of_lt hlt]
      have hmin : n ⊓ C = n := by omega
      simp only [CircularBuffer.push, if_pos hcnt_lt]
      refine ⟨hsize, ?_, ?_, ?_, ?_⟩
      · simp only [hlapp, hcount]
        omega
      · simp only [hlapp, htail, hsize, Nat.mod_add_mod]
      · simp only [hlapp, hhead0, hsize]
        rcases lt_or_ge (n + 1) C with h1 | h1
        · rw [if_pos h1]
        · have h2 : n + 1 = C := by omega
          rw [if_neg (by omega), h2, Nat.mod_self]
      · have hbs : b.toArray = s := by
          rw [harr, Nat.sub_eq_zero_of_le (le_of_lt hlt), List.drop_zero]
        have hdrop : (s ++ [v]).length - C = 0 := by
          rw [hlapp]; omega
        rw [hdrop, List.drop_zero]
        simp only [CircularBuffer.toArray]
        rw [hcount, hmin, List.range_succ, List.map_append]
        congr 1
        · have hpre : ∀ i ∈ List.range n,
              Function.update b.buffer b.tail v ((b.head + i) % b.size)
                = b.buffer ((b.head + i) % b.size) := by
            intro i hi
            rw [List.mem_range] at hi
            apply Function.update_noteq
            rw [hhead0, htailn, hsize, Nat.zero_add, Nat.mod_eq_of_lt (by omega)]
            omega
          rw [List.map_congr_left hpre, ← hbs]
          simp only [CircularBuffer.toArray]
          rw [hcount, hmin]
        · rw [hhead0, htailn, hsize]
          simp only [List.map_cons, List.map_nil]
          rw [Nat.zero_add, Nat.mod_eq_of_lt hlt, Function.update_same]
    · -- at capacity: the push evicts the oldest sample
      have hge : C ≤ n := le_of_not_lt hlt
      have hcnt_not : ¬ b.count < b.size := by rw [hcount, hsize]; omega
      have hcountC : b.count = C := by rw [hcount]; omega
      have hheadn : b.head = n % C := by rw [hhead, if_neg hlt]
      have hmodlt : n % C < C := Nat.mod_lt _ (by omega)
      have hheadlt : b.head < C := by rw [hheadn]; exact hmodlt
      simp only [CircularBuffer.push, if_neg hcnt_not]
      refine ⟨hsize, ?_, ?_, ?_, ?_⟩
      · show b.count = min (s ++ [v]).length C
        rw [hlapp, hcountC]
        omega
      · show (b.tail + 1) % b.size = (s ++ [v]).length % C
        rw [hlapp, htail, hsize, Nat.mod_add_mod]
      · show (b.head + 1) % b.size = if (s ++ [v]).length < C then 0 else (s ++ [v]).length % C
        rw [hlapp, hheadn, hsize, Nat.mod_add_mod, if_neg (by omega)]
      · -- the rolled view drops the evicted oldest sample and appends v
        have htgt : (s ++ [v]).drop ((s ++ [v]).length - C) = s.drop (n - C + 1) ++ [v] := by
          have h1 : (s ++ [v]).length - C = (n - C) + 1 := by rw [hlapp]; omega
          rw [h1, List.drop_append_of_le_length (by omega)]
        rw [htgt]
        have hsome : ∀ (k : ℕ), k < n → s[k]? = some (s.getD k 0) := by
          intro k hk
          rw [List.getD_eq_getElem?_getD, List.getElem?_eq_getElem hk]
          rfl
        have helem : ∀ (j : ℕ), j < C → b.buffer ((b.head + j) % C)
            = s.getD (n - C + j) 0 := by
          intro j hj
          have hjlen : j < b.toArray.length := by
            rw [toArray_length, hcountC]; exact hj
          have h1 := toArray_getElem b j hjlen
          rw [hsize] at h1
          have h2 : b.toArray[j] = (List.drop (n - C) s).getD j 0 := by
            rw [List.getD_eq_getElem?_getD, ← harr, List.getElem?_eq_getElem hjlen]
            rfl
          have h3 : (List.drop (n - C) s).getD j 0 = s.getD (n - C + j) 0 := by
            rw [List.getD_eq_getElem?_getD, List.getElem?_drop, List.getD_eq_getElem?_getD]
          rw [← h1, h2, h3]
        apply List.ext_getElem?
        intro i
        rw [toArray_getElem?]
        show (if i < b.count then
            some (Function.update b.buffer b.tail v (((b.head + 1) % b.size + i) % b.size))
          else none) = (List.drop (n - C + 1) s ++ [v])[i]?
        rw [List.getElem?_append, List.length_drop]
        have hpos : ((b.head + 1) % b.size + i) % b.size = (b.head + (1 + i)) % C := by
          rw [Nat.mod_add_mod, hsize, Nat.add_assoc]
        rw [hcountC, hpos]
        by_cases hge2 : C ≤ i
        · rw [if_neg (by omega), if_neg (by omega)]
          rw [List.getElem?_eq_none (by simp; omega)]
        · have hiC : i < C := by omega
          by_cases hlast2 : i < C - 1
          · rw [if_pos hiC, if_pos (by omega)]
            rw [List.getElem?_drop, hsome (n - C + 1 + i) (by omega)]
            have hne : (b.head + (1 + i)) % C ≠ b.tail := by
              rw [htail, ← hheadn]
              intro hcon
              have := (add_mod_self_iff C b.head (1 + i) hheadlt (by omega)).mp hcon
              omega
            rw [Function.update_noteq hne, helem (1 + i) (by omega)]
            have hidx : n - C + (1 + i) = n - C + 1 + i := by omega
            rw [hidx]
          · have hieq : i = C - 1 := by omega
            rw [if_pos hiC, if_neg (by omega)]
            have hself : (b.head + (1 + i)) % C = b.tail := by
              rw [htail, ← hheadn]
              exact (add_mod_self_iff C b.head (1 + i) hheadlt
                (by omega)).mpr (Or.inr (by omega))
            rw [hself, Function.update_same]
            rw [show i - (n - (n - C + 1)) = 0 by omega]
            rfl

/-- C6.  For every capacity `C ≥ 1` and every pushed sequence longer
than `C`: `toArray()` has length ≤ C (in fact exactly C), equals exactly
the last `C` pushed values in push order, and each further push at
capacity evicts exactly the oldest held sample. -/
theorem circularBuffer_last_C (C : ℕ) (hC : 1 ≤ C) (s : List ℚ) (hs : C < s.length) :
    ((CircularBuffer.new C).pushArray s).toArray.length ≤ C
    ∧ ((CircularBuffer.new C).pushArray s).toArray = s.drop (s.length - C)
    ∧ ∀ v : ℚ, (((CircularBuffer.new C).pushArray s).push v).toArray
        = ((CircularBuffer.new C).pushArray s).toArray.drop 1 ++ [v] := by
  obtain ⟨hsize, hcount, htail, hhead, harr⟩ := pushArray_state C hC s
  refine ⟨?_, harr, ?_⟩
  · rw [toArray_length, hcount]
    omega
  · intro v
    have hstep : (CircularBuffer.new C).pushArray (s ++ [v])
        = ((CircularBuffer.new C).pushArray s).push v := by
      simp [CircularBuffer.pushArray, List.foldl_append]
    rw [← hstep, (pushArray_state C hC (s ++ [v])).2.2.2.2, harr]
    rw [show (s ++ [v]).length - C = (s.length - C) + 1 by simp; omega]
    rw [List.drop_append_of_le_length (by omega), List.drop_drop]

/-- C6 witness: capacity 2, pushes `[1, 2, 3]` — the view keeps exactly
the last two values `[2, 3]`, oldest first. -/
theorem circularBuffer_last_C_witness :
    ((CircularBuffer.new 2).pushArray [1, 2, 3]).toArray = [2, 3] := by
  rw [(circularBuffer_last_C 2 (by decide) [1, 2, 3] (by decide)).2.1]
  rfl

/-- C10 counterexample.  The claim says that in the normal case, at
`avgRMS` exactly `0.06` with `breathingRate < 12`, the tag is `slow`.
The code tests `avgRMS < 0.06` strictly for `slow` (and `> 0.06` for
`deep`), so at the boundary both tests fail and the tag is `regular`. -/
theorem classifyBreathing_rms_boundary_regular :
    (classifyBreathing ⟨JNum.num (1/250), JNum.num (6/100), JNum.num (1/20), JNum.num 0,
        JNum.num (1/10000), JNum.num 10, 0, []⟩ (PriorityQueue.new AbnEvent)).1.status
      = Status.normal
    ∧ (classifyBreathing ⟨JNum.num (1/250), JNum.num (6/100), JNum.num (1/20), JNum.num 0,
        JNum.num (1/10000), JNum.num 10, 0, []⟩ (PriorityQueue.new AbnEvent)).1.breathingType
      = some BreathingType.regular
    ∧ BreathingType.regular ≠ BreathingType.slow := by
  refine ⟨?_, ?_, by decide⟩ <;> norm_num [classifyBreathing, classifyChecks]

/-- C10 amended.  Whenever the classifier returns status `normal` on
real-valued aggregates, the breathing-type tag is `deep` if
`avgRMS > 0.06` and `breathingRate < 14`, `slow` if `avgRMS < 0.06`
(strictly — not `≤` as claimed) and `breathingRate < 12`, and `regular`
otherwise; at `avgRMS` exactly `0.06` the tag is `regular`. -/
theorem classifyBreathing_breathingType (e r z d v br : ℚ) (pc : ℕ) (wf : List Window)
    (q : PriorityQueue AbnEvent)
    (h : (classifyBreathing ⟨JNum.num e, JNum.num r, JNum.num z, JNum.num d, JNum.num v,
        JNum.num br, pc, wf⟩ q).1.status = Status.normal) :
    (classifyBreathing ⟨JNum.num e, JNum.num r, JNum.num z, JNum.num d, JNum.num v,
        JNum.num br, pc, wf⟩ q).1.breathingType
      = some (if 6/100 < r ∧ br < 14 then BreathingType.deep
          else if r < 6/100 ∧ br < 12 then BreathingType.slow
          else BreathingType.regular) := by
  simp only [classifyBreathing] at h ⊢
  split at h
  · rename_i hcond
    rw [if_pos hcond]
    simp only [JNum.gt_num, JNum.lt_num, Bool.and_eq_true, decide_eq_true_eq]
  · simp at h

/-- C10 amended, witness: a normal-case feature set with `avgRMS = 0.04`
and `breathingRate = 10` is tagged `slow` via the theorem. -/
theorem classifyBreathing_breathingType_witness :
    (classifyBreathing ⟨JNum.num (1/250), JNum.num (1/25), JNum.num (1/20), JNum.num 0,
        JNum.num (1/10000), JNum.num 10, 0, []⟩ (PriorityQueue.new AbnEvent)).1.breathingType
      = some BreathingType.slow := by
  have h := classifyBreathing_breathingType (1/250) (1/25) (1/20) 0 (1/10000) 10 0 []
    (PriorityQueue.new AbnEvent) (by norm_num [classifyBreathing, classifyChecks])
  rw [h]
  norm_num

/-!
## The all-zero recording (claim C1)
-/

/-- The noise gate maps an all-zero signal to itself. -/
theorem removeNoise_replicate_zero (n : ℕ) :
    removeNoise (List.replicate n (0:ℚ)) (1/50) = List.replicate n 0 := by
  unfold removeNoise
  rw [List.map_replicate]
  norm_num

/-- Sum-of-squares accumulation over zeros is the identity. -/
theorem foldl_sq_zero (m : ℕ) (acc : ℚ) :
    (List.replicate m (0:ℚ)).foldl (fun energy x => energy + x * x) acc = acc := by
  induction m generalizing acc with
  | zero => rfl
  | succ k ih =>
    rw [List.replicate_succ, List.foldl_cons]
    simpa using ih acc

/-- Energy of a nonempty all-zero frame is exactly `0`. -/
theorem calculateEnergy_zero (m : ℕ) (hm : 0 < m) :
    calculateEnergy (List.replicate m (0:ℚ)) = JNum.num 0 := by
  unfold calculateEnergy
  rw [foldl_sq_zero, List.length_replicate, JNum.div_num,
    if_neg (by exact_mod_cast hm.ne'), zero_div]

/-- RMS of a nonempty all-zero frame is `sqrt 0`. -/
theorem calculateRMS_zero (f : ℚ → ℚ) (hf : f 0 = 0) (m : ℕ) (hm : 0 < m) :
    calculateRMS f (List.replicate m (0:ℚ)) = JNum.num 0 := by
  unfold calculateRMS
  rw [calculateEnergy_zero m hm, JNum.sqrtJ_num, if_neg (by norm_num), hf]

/-- A constant signal has no sign changes. -/
theorem countCrossings_replicate_zero (m : ℕ) :
    countCrossings (List.replicate m (0:ℚ)) = 0 := by
  induction m with
  | zero => rfl
  | succ k ih =>
    cases k with
    | zero => rfl
    | succ j =>
      rw [List.replicate_succ, List.replicate_succ, countCrossings]
      rw [List.replicate_succ] at ih
      rw [ih]
      norm_num

/-- ZCR of an all-zero frame of length at least 2 is exactly `0`. -/
theorem calculateZCR_zero (m : ℕ) (hm : 2 ≤ m) :
    calculateZCR (List.replicate m (0:ℚ)) = JNum.num 0 := by
  unfold calculateZCR
  rw [countCrossings_replicate_zero, List.length_replicate, JNum.div_num,
    if_neg (by
      intro hcon
      have : (m : ℚ) = 1 := by linarith
      have : m = 1 := by exact_mod_cast this
      omega), Nat.cast_zero, zero_div]

/-- `getD` on an all-zero list is `0` at every index. -/
theorem getD_replicate_zero (q t : ℕ) : (List.replicate q (0:ℚ)).getD t 0 = 0 := by
  rw [List.getD_eq_getElem?_getD]
  rcases lt_or_ge t q with h | h
  · rw [List.getElem?_eq_getElem (by simpa using h)]
    simp [List.getElem_replicate]
  · rw [List.getElem?_eq_none (by simpa using h)]
    rfl

/-- The padded transform length dominates the frame length. -/
theorem le_paddedLength (n : ℕ) : n ≤ paddedLength n := by
  unfold paddedLength
  split
  · omega
  · exact Nat.le_pow_clog (by norm_num) n

/-- Both DFT sums over an all-zero padded frame vanish, for every choice
of the trigonometric functions. -/
theorem dftSums_zero (c s : ℚ → ℚ) (P k : ℕ) :
    dftSums c s (List.replicate P (0:ℚ)) P k = (0, 0) := by
  unfold dftSums
  have key : ∀ (l : List ℕ) (acc : ℚ × ℚ),
      l.foldl (fun acc t =>
        (acc.1 + (List.replicate P (0:ℚ)).getD t 0 * c ((k * t : ℕ) / (P : ℚ)),
         acc.2 - (List.replicate P (0:ℚ)).getD t 0 * s ((k * t : ℕ) / (P : ℚ))))
        acc = acc := by
    intro l
    induction l with
    | nil => intro acc; rfl
    | cons t ts ih =>
      intro acc
      rw [List.foldl_cons, getD_replicate_zero]
      simp
  exact key _ _

/-- Magnitude spectrum of an all-zero frame: every bin is `sqrt 0`. -/
theorem fft_magnitudes_zero (c s f : ℚ → ℚ) (W : ℕ) :
    (fft c s f (List.replicate W (0:ℚ))).magnitudes
      = List.replicate (paddedLength W / 2) (f 0) := by
  unfold fft
  dsimp only
  rw [List.length_replicate]
  rw [show List.replicate W (0:ℚ) ++ List.replicate (paddedLength W - W) 0
      = List.replicate (paddedLength W) 0 by
    rw [← List.replicate_add]
    congr 1
    have := le_paddedLength W
    omega]
  rw [List.map_map]
  rw [List.map_congr_left (g := fun x => f 0) (by
    intro kk _
    simp [Function.comp, dftSums_zero])]
  rw [List.map_const', List.length_range]

/-- The dominant-bin scan over an all-zero magnitude list stays at
`(0, 0)`. -/
theorem dominantBin_replicate_zero (q : ℕ) :
    dominantBin (List.replicate q (0:ℚ)) = (0, 0) := by
  unfold dominantBin
  have key : ∀ (l : List ℕ),
      l.foldl (fun acc i => if 0 < i ∧ acc.1 < (List.replicate q (0:ℚ)).getD i 0
        then ((List.replicate q (0:ℚ)).getD i 0, i) else acc) ((0:ℚ), 0) = ((0:ℚ), 0) := by
    intro l
    induction l with
    | nil => rfl
    | cons t ts ih =>
      rw [List.foldl_cons, getD_replicate_zero, if_neg (by norm_num)]
      exact ih
  exact key _

/-- A frame record over an all-zero signal: all features vanish (given
that the square root fixes `0`). -/
theorem mkWindow_zero (f c s : ℚ → ℚ) (hf : f 0 = 0) (n W : ℕ) (rate : ℚ) (start : ℕ)
    (hW : 2 ≤ W) (hws : start + W ≤ n) :
    mkWindow f c s (List.replicate n (0:ℚ)) W rate start
      = { startSample := start, energy := JNum.num 0, rms := JNum.num 0, zcr := JNum.num 0,
          dominantFreq := JNum.num 0,
          fftMagnitudes := List.replicate (paddedLength W / 2) 0,
          timestamp := JNum.div (JNum.num (start : ℚ)) (JNum.num rate) } := by
  unfold mkWindow
  have hwin : ((List.replicate n (0:ℚ)).drop start).take W = List.replicate W 0 := by
    rw [List.drop_replicate, List.take_replicate]
    congr 1
    omega
  rw [hwin]
  dsimp only
  rw [fft_magnitudes_zero, hf, dominantBin_replicate_zero,
    calculateEnergy_zero W (by omega), calculateRMS_zero f hf W (by omega),
    calculateZCR_zero W hW]
  have hden : ¬ ((W : ℚ) * 2 = 0) := by
    have : (2 : ℚ) ≤ (W : ℚ) := by exact_mod_cast hW
    nlinarith
  simp [JNum.div_num, hden]

/-- Every frame produced by the sliding window over an all-zero signal
has vanishing energy, RMS and ZCR. -/
theorem slideLoop_zero_mem (f c s : ℚ → ℚ) (hf : f 0 = 0) (n W hop : ℕ) (rate : ℚ)
    (hW : 2 ≤ W) :
    ∀ (fuel start : ℕ) (w : Window),
      w ∈ slideLoop f c s (List.replicate n (0:ℚ)) W hop rate fuel start →
      w.energy = JNum.num 0 ∧ w.rms = JNum.num 0 ∧ w.zcr = JNum.num 0 := by
  intro fuel
  induction fuel with
  | zero =>
    intro start w hw
    simp [slideLoop] at hw
  | succ k ih =>
    intro start w hw
    rw [slideLoop] at hw
    by_cases hc : start + W < (List.replicate n (0:ℚ)).length
    · rw [if_pos hc] at hw
      rcases List.mem_cons.mp hw with rfl | hw2
      · rw [List.length_replicate] at hc
        rw [mkWindow_zero f c s hf n W rate start hW (by omega)]
        exact ⟨rfl, rfl, rfl⟩
      · exact ih _ _ hw2
    · rw [if_neg hc] at hw
      simp at hw

/-- The peak detector finds nothing in an all-zero envelope (no sample
is strictly greater than its neighbour). -/
theorem detectPeaks_const_zero (env : List JNum) (t : JNum)
    (henv : ∀ x ∈ env, x = JNum.num 0) : detectPeaks env t = [] := by
  unfold detectPeaks
  apply detectFrom_no_cand env t (env.length / 20) env.length 1 [] (by omega)
  intro j hj hjl
  unfold isPeakAt
  have h1 : env.getD j JNum.nan = JNum.num 0 := by
    rw [List.getD_eq_getElem?_getD, List.getElem?_eq_getElem (by omega)]
    simp only [Option.getD_some]
    exact henv _ (List.getElem_mem _)
  have h0 : env.getD (j - 1) JNum.nan = JNum.num 0 := by
    rw [List.getD_eq_getElem?_getD, List.getElem?_eq_getElem (by omega)]
    simp only [Option.getD_some]
    exact henv _ (List.getElem_mem _)
  rw [h1, h0]
  simp

/-- Accumulating `JNum.add` over a list of exact zeros stays `0`. -/
theorem foldl_add_zero (g : Window → JNum) :
    ∀ (ws : List Window), (∀ w ∈ ws, g w = JNum.num 0) →
      ws.foldl (fun sum w => JNum.add sum (g w)) (JNum.num 0) = JNum.num 0 := by
  intro ws
  induction ws with
  | nil => intro _; rfl
  | cons w rest ih =>
    intro h
    rw [List.foldl_cons, h w (List.mem_cons_self _ _), JNum.add_num, add_zero]
    exact ih (fun x hx => h x (List.mem_cons_of_mem _ hx))

/-- On the all-zero aggregate features (with default breathing rate 12),
only the signal-quality check fires: the classifier state after the five
checks is `isNormal = true`, `abnormalityScore = 15`, and the queue holds
exactly the poor-signal-quality event with severity 35. -/
theorem classifyChecks_zero (d : JNum) (pc : ℕ) (wf : List Window)
    (hwf : ∀ w ∈ wf, w.energy = JNum.num 0) :
    classifyChecks ⟨JNum.num 0, JNum.num 0, JNum.num 0, d, JNum.num 0, JNum.num 12, pc, wf⟩
        (PriorityQueue.new AbnEvent)
      = (true, JNum.num 15,
          ⟨[⟨⟨AbnType.noise, "Poor signal quality / Environmental noise", JNum.num 35⟩,
              JNum.num 35⟩]⟩) := by
  have hspk : (wf.zip wf.tail).countP
      (fun pr => JNum.gt pr.2.energy (JNum.mul pr.1.energy (JNum.num 3))) = 0 := by
    rw [List.countP_eq_zero]
    intro pr hpr
    have h1 : pr.1 ∈ wf := (List.of_mem_zip (by rwa [← Prod.mk.eta (p := pr)] at hpr)).1
    have h2 : pr.2 ∈ wf :=
      List.mem_of_mem_tail (List.of_mem_zip (by rwa [← Prod.mk.eta (p := pr)] at hpr)).2
    rw [hwf _ h1, hwf _ h2]
    simp
  unfold classifyChecks
  dsimp only
  rw [hspk]
  norm_num [PriorityQueue.enqueue, insertItem, PriorityQueue.new]

/-- On the all-zero aggregate features, the final classification is
`normal` and the queue contents are exactly the signal-quality event. -/
theorem classifyBreathing_zero (d : JNum) (pc : ℕ) (wf : List Window)
    (hwf : ∀ w ∈ wf, w.energy = JNum.num 0) :
    (classifyBreathing ⟨JNum.num 0, JNum.num 0, JNum.num 0, d, JNum.num 0, JNum.num 12,
        pc, wf⟩ (PriorityQueue.new AbnEvent)).1.status = Status.normal
    ∧ (classifyBreathing ⟨JNum.num 0, JNum.num 0, JNum.num 0, d, JNum.num 0, JNum.num 12,
        pc, wf⟩ (PriorityQueue.new AbnEvent)).2.getAll
      = [(⟨AbnType.noise, "Poor signal quality / Environmental noise", JNum.num 35⟩,
          JNum.num 35)] := by
  constructor <;>
  · unfold classifyBreathing
    rw [classifyChecks_zero d pc wf hwf]
    norm_num [PriorityQueue.getAll]

/-- A variance-style fold over windows of zero energy, against a zero
average, sums to zero. -/
theorem foldl_var_zero (a : JNum) (ha : a = JNum.num 0) (ws : List Window)
    (hmem : ∀ w ∈ ws, w.energy = JNum.num 0) :
    ws.foldl (fun sum w => JNum.add sum (JNum.sq (JNum.sub w.energy a)))
      (JNum.num 0) = JNum.num 0 :=
  foldl_add_zero (fun w => JNum.sq (JNum.sub w.energy a)) ws
    (fun w hw => by dsimp only; rw [hmem w hw, ha]; simp)

/-- Field-wise form of the all-zero classification lemma: any features
record whose aggregates are zero and whose breathing rate is the default
12 classifies as `normal` with exactly the signal-quality event. -/
theorem classifyBreathing_fields (fm : Features)
    (hE : fm.avgEnergy = JNum.num 0) (hR : fm.avgRMS = JNum.num 0)
    (hZ : fm.avgZCR = JNum.num 0) (hV : fm.energyVariance = JNum.num 0)
    (hBR : fm.breathingRate = JNum.num 12)
    (hwf : ∀ w ∈ fm.windowFeatures, w.energy = JNum.num 0) :
    (classifyBreathing fm (PriorityQueue.new AbnEvent)).1.status = Status.normal
    ∧ (classifyBreathing fm (PriorityQueue.new AbnEvent)).2.getAll
      = [(⟨AbnType.noise, "Poor signal quality / Environmental noise", JNum.num 35⟩,
          JNum.num 35)] := by
  obtain ⟨e, r, z, d, v, br, pc, wf⟩ := fm
  simp only at hE hR hZ hV hBR hwf
  subst hE hR hZ hV hBR
  exact classifyBreathing_zero d pc wf hwf

/-- The classification stored in the analysis result is the classifier run
on the stored features with a fresh queue. -/
theorem analyzeBreathing_classification_eq (f c s : ℚ → ℚ) (a : List ℚ) (r : ℚ) :
    (analyzeBreathing f c s a r).classification
      = (classifyBreathing (analyzeBreathing f c s a r).features
          (PriorityQueue.new AbnEvent)).1 := rfl

/-- The abnormality list stored in the analysis result is the queue
contents produced by the classifier on the stored features. -/
theorem analyzeBreathing_abnormalities_eq (f c s : ℚ → ℚ) (a : List ℚ) (r : ℚ) :
    (analyzeBreathing f c s a r).abnormalities
      = (classifyBreathing (analyzeBreathing f c s a r).features
          (PriorityQueue.new AbnEvent)).2.getAll := rfl

/-- If the aggregates of an analysis result are all zero and the breathing
rate is the default 12, the resulting status is `normal` and the
abnormality list is exactly the signal-quality event. -/
theorem analyzeBreathing_classify_of (f c s : ℚ → ℚ) (a : List ℚ) (r : ℚ)
    (hE : (analyzeBreathing f c s a r).features.avgEnergy = JNum.num 0)
    (hR : (analyzeBreathing f c s a r).features.avgRMS = JNum.num 0)
    (hZ : (analyzeBreathing f c s a r).features.avgZCR = JNum.num 0)
    (hV : (analyzeBreathing f c s a r).features.energyVariance = JNum.num 0)
    (hBR : (analyzeBreathing f c s a r).features.breathingRate = JNum.num 12)
    (hwf : ∀ w ∈ (analyzeBreathing f c s a r).features.windowFeatures,
      w.energy = JNum.num 0) :
    (analyzeBreathing f c s a r).classification.status = Status.normal
    ∧ (analyzeBreathing f c s a r).abnormalities
      = [(⟨AbnType.noise, "Poor signal quality / Environmental noise", JNum.num 35⟩,
          JNum.num 35)] := by
  rw [analyzeBreathing_classification_eq, analyzeBreathing_abnormalities_eq]
  exact classifyBreathing_fields _ hE hR hZ hV hBR hwf

/-- On 8 seconds of zeroes at 16 kHz the average energy is zero. -/
theorem allzero_avgEnergy (f c s : ℚ → ℚ) (hf : f 0 = 0) :
    (analyzeBreathing f c s (List.replicate 128000 (0:ℚ)) 16000).features.avgEnergy
      = JNum.num 0 := by
  have hclean := removeNoise_replicate_zero 128000
  have hfloor : ((⌊(16000 : ℚ) * (5/10)⌋ : ℤ).toNat) = 8000 := by
    norm_num
    rfl
  unfold analyzeBreathing
  rw [hclean, hfloor]
  dsimp only
  have hhop : (8000 : ℕ) / 2 = 4000 := by norm_num
  rw [hhop]
  generalize hws : slidingWindowAnalysis f c s (List.replicate 128000 (0:ℚ)) 8000 4000 16000 = ws
  have hmem : ∀ w ∈ ws, w.energy = JNum.num 0 ∧ w.rms = JNum.num 0 ∧ w.zcr = JNum.num 0 := by
    intro w hw
    rw [← hws] at hw
    exact slideLoop_zero_mem f c s hf 128000 8000 4000 16000 (by norm_num)
      (List.replicate 128000 (0:ℚ)).length 0 w hw
  have hlen : ws.length = 30 := by
    have h1 := (slidingWindowAnalysis_starts f c s (List.replicate 128000 (0:ℚ))
      8000 4000 16000 (by norm_num) (by norm_num)).1
    have h2 := congrArg List.length h1
    rw [List.length_map, List.length_map, List.length_range, List.length_replicate] at h2
    have h3 : slideCount 128000 8000 4000 = 30 := by decide
    rw [hws] at h2
    rw [h2, h3]
  have hE : ws.foldl (fun sum w => JNum.add sum w.energy) (JNum.num 0) = JNum.num 0 :=
    foldl_add_zero Window.energy ws (fun w hw => (hmem w hw).1)
  rw [hE, hlen]
  norm_num

/-- On 8 seconds of zeroes at 16 kHz the average RMS is zero. -/
theorem allzero_avgRMS (f c s : ℚ → ℚ) (hf : f 0 = 0) :
    (analyzeBreathing f c s (List.replicate 128000 (0:ℚ)) 16000).features.avgRMS
      = JNum.num 0 := by
  have hclean := removeNoise_replicate_zero 128000
  have hfloor : ((⌊(16000 : ℚ) * (5/10)⌋ : ℤ).toNat) = 8000 := by
    norm_num
    rfl
  unfold analyzeBreathing
  rw [hclean, hfloor]
  dsimp only
  have hhop : (8000 : ℕ) / 2 = 4000 := by norm_num
  rw [hhop]
  generalize hws : slidingWindowAnalysis f c s (List.replicate 128000 (0:ℚ)) 8000 4000 16000 = ws
  have hmem : ∀ w ∈ ws, w.energy = JNum.num 0 ∧ w.rms = JNum.num 0 ∧ w.zcr = JNum.num 0 := by
    intro w hw
    rw [← hws] at hw
    exact slideLoop_zero_mem f c s hf 128000 8000 4000 16000 (by norm_num)
      (List.replicate 128000 (0:ℚ)).length 0 w hw
  have hlen : ws.length = 30 := by
    have h1 := (slidingWindowAnalysis_starts f c s (List.replicate 128000 (0:ℚ))
      8000 4000 16000 (by norm_num) (by norm_num)).1
    have h2 := congrArg List.length h1
    rw [List.length_map, List.length_map, List.length_range, List.length_replicate] at h2
    have h3 : slideCount 128000 8000 4000 = 30 := by decide
    rw [hws] at h2
    rw [h2, h3]
  have hR : ws.foldl (fun sum w => JNum.add sum w.rms) (JNum.num 0) = JNum.num 0 :=
    foldl_add_zero Window.rms ws (fun w hw => (hmem w hw).2.1)
  rw [hR, hlen]
  norm_num

/-- On 8 seconds of zeroes at 16 kHz the average ZCR is zero. -/
theorem allzero_avgZCR (f c s : ℚ → ℚ) (hf : f 0 = 0) :
    (analyzeBreathing f c s (List.replicate 128000 (0:ℚ)) 16000).features.avgZCR
      = JNum.num 0 := by
  have hclean := removeNoise_replicate_zero 128000
  have hfloor : ((⌊(16000 : ℚ) * (5/10)⌋ : ℤ).toNat) = 8000 := by
    norm_num
    rfl
  unfold analyzeBreathing
  rw [hclean, hfloor]
  dsimp only
  have hhop : (8000 : ℕ) / 2 = 4000 := by norm_num
  rw [hhop]
  generalize hws : slidingWindowAnalysis f c s (List.replicate 128000 (0:ℚ)) 8000 4000 16000 = ws
  have hmem : ∀ w ∈ ws, w.energy = JNum.num 0 ∧ w.rms = JNum.num 0 ∧ w.zcr = JNum.num 0 := by
    intro w hw
    rw [← hws] at hw
    exact slideLoop_zero_mem f c s hf 128000 8000 4000 16000 (by norm_num)
      (List.replicate 128000 (0:ℚ)).length 0 w hw
  have hlen : ws.length = 30 := by
    have h1 := (slidingWindowAnalysis_starts f c s (List.replicate 128000 (0:ℚ))
      8000 4000 16000 (by norm_num) (by norm_num)).1
    have h2 := congrArg List.length h1
    rw [List.length_map, List.length_map, List.length_range, List.length_replicate] at h2
    have h3 : slideCount 128000 8000 4000 = 30 := by decide
    rw [hws] at h2
    rw [h2, h3]
  have hZ : ws.foldl (fun sum w => JNum.add sum w.zcr) (JNum.num 0) = JNum.num 0 :=
    foldl_add_zero Window.zcr ws (fun w hw => (hmem w hw).2.2)
  rw [hZ, hlen]
  norm_num

/-- On 8 seconds of zeroes at 16 kHz the energy variance is zero. -/
theorem allzero_energyVariance (f c s : ℚ → ℚ) (hf : f 0 = 0) :
    (analyzeBreathing f c s (List.replicate 128000 (0:ℚ)) 16000).features.energyVariance
      = JNum.num 0 := by
  have hclean := removeNoise_replicate_zero 128000
  have hfloor : ((⌊(16000 : ℚ) * (5/10)⌋ : ℤ).toNat) = 8000 := by
    norm_num
    rfl
  unfold analyzeBreathing
  rw [hclean, hfloor]
  dsimp only
  have hhop : (8000 : ℕ) / 2 = 4000 := by norm_num
  rw [hhop]
  generalize hws : slidingWindowAnalysis f c s (List.replicate 128000 (0:ℚ)) 8000 4000 16000 = ws
  have hmem : ∀ w ∈ ws, w.energy = JNum.num 0 ∧ w.rms = JNum.num 0 ∧ w.zcr = JNum.num 0 := by
    intro w hw
    rw [← hws] at hw
    exact slideLoop_zero_mem f c s hf 128000 8000 4000 16000 (by norm_num)
      (List.replicate 128000 (0:ℚ)).length 0 w hw
  have hlen : ws.length = 30 := by
    have h1 := (slidingWindowAnalysis_starts f c s (List.replicate 128000 (0:ℚ))
      8000 4000 16000 (by norm_num) (by norm_num)).1
    have h2 := congrArg List.length h1
    rw [List.length_map, List.length_map, List.length_range, List.length_replicate] at h2
    have h3 : slideCount 128000 8000 4000 = 30 := by decide
    rw [hws] at h2
    rw [h2, h3]
  have hE : ws.foldl (fun sum w => JNum.add sum w.energy) (JNum.num 0) = JNum.num 0 :=
    foldl_add_zero Window.energy ws (fun w hw => (hmem w hw).1)
  have havgE : JNum.div (ws.foldl (fun sum w => JNum.add sum w.energy) (JNum.num 0))
      (JNum.num (ws.length : ℚ)) = JNum.num 0 := by
    rw [hE, hlen]
    norm_num
  rw [foldl_var_zero _ havgE ws (fun w hw => (hmem w hw).1), hlen]
  norm_num

/-- On 8 seconds of zeroes at 16 kHz no peaks are found, so the breathing
rate takes its default value 12. -/
theorem allzero_breathingRate (f c s : ℚ → ℚ) (hf : f 0 = 0) :
    (analyzeBreathing f c s (List.replicate 128000 (0:ℚ)) 16000).features.breathingRate
      = JNum.num 12 := by
  have hclean := removeNoise_replicate_zero 128000
  have hfloor : ((⌊(16000 : ℚ) * (5/10)⌋ : ℤ).toNat) = 8000 := by
    norm_num
    rfl
  unfold analyzeBreathing
  rw [hclean, hfloor]
  dsimp only
  have hhop : (8000 : ℕ) / 2 = 4000 := by norm_num
  rw [hhop]
  generalize hws : slidingWindowAnalysis f c s (List.replicate 128000 (0:ℚ)) 8000 4000 16000 = ws
  have hmem : ∀ w ∈ ws, w.energy = JNum.num 0 ∧ w.rms = JNum.num 0 ∧ w.zcr = JNum.num 0 := by
    intro w hw
    rw [← hws] at hw
    exact slideLoop_zero_mem f c s hf 128000 8000 4000 16000 (by norm_num)
      (List.replicate 128000 (0:ℚ)).length 0 w hw
  have hlen : ws.length = 30 := by
    have h1 := (slidingWindowAnalysis_starts f c s (List.replicate 128000 (0:ℚ))
      8000 4000 16000 (by norm_num) (by norm_num)).1
    have h2 := congrArg List.length h1
    rw [List.length_map, List.length_map, List.length_range, List.length_replicate] at h2
    have h3 : slideCount 128000 8000 4000 = 30 := by decide
    rw [hws] at h2
    rw [h2, h3]
  have hR : ws.foldl (fun sum w => JNum.add sum w.rms) (JNum.num 0) = JNum.num 0 :=
    foldl_add_zero Window.rms ws (fun w hw => (hmem w hw).2.1)
  have havgR : JNum.div (ws.foldl (fun sum w => JNum.add sum w.rms) (JNum.num 0))
      (JNum.num (ws.length : ℚ)) = JNum.num 0 := by
    rw [hR, hlen]
    norm_num
  have hpeaks : detectPeaks (ws.map Window.rms)
      (JNum.mul (JNum.div (ws.foldl (fun sum w => JNum.add sum w.rms) (JNum.num 0))
        (JNum.num (ws.length : ℚ))) (JNum.num (5/10))) = [] := by
    apply detectPeaks_const_zero
    intro x hx
    rcases List.mem_map.mp hx with ⟨w, hw, rfl⟩
    exact (hmem w hw).2.1
  rw [hpeaks]
  simp

/-- On 8 seconds of zeroes at 16 kHz every analysis window has zero
energy. -/
theorem allzero_windowFeatures (f c s : ℚ → ℚ) (hf : f 0 = 0) :
    ∀ w ∈ (analyzeBreathing f c s
      (List.replicate 128000 (0:ℚ)) 16000).features.windowFeatures,
      w.energy = JNum.num 0 := by
  have hclean := removeNoise_replicate_zero 128000
  have hfloor : ((⌊(16000 : ℚ) * (5/10)⌋ : ℤ).toNat) = 8000 := by
    norm_num
    rfl
  unfold analyzeBreathing
  rw [hclean, hfloor]
  dsimp only
  have hhop : (8000 : ℕ) / 2 = 4000 := by norm_num
  rw [hhop]
  generalize hws : slidingWindowAnalysis f c s (List.replicate 128000 (0:ℚ)) 8000 4000 16000 = ws
  have hmem : ∀ w ∈ ws, w.energy = JNum.num 0 ∧ w.rms = JNum.num 0 ∧ w.zcr = JNum.num 0 := by
    intro w hw
    rw [← hws] at hw
    exact slideLoop_zero_mem f c s hf 128000 8000 4000 16000 (by norm_num)
      (List.replicate 128000 (0:ℚ)).length 0 w hw
  have hlen : ws.length = 30 := by
    have h1 := (slidingWindowAnalysis_starts f c s (List.replicate 128000 (0:ℚ))
      8000 4000 16000 (by norm_num) (by norm_num)).1
    have h2 := congrArg List.length h1
    rw [List.length_map, List.length_map, List.length_range, List.length_replicate] at h2
    have h3 : slideCount 128000 8000 4000 = 30 := by decide
    rw [hws] at h2
    rw [h2, h3]
  exact fun w hw => (hmem w hw).1

/-- On the all-zero 8-second recording at 16 kHz, the classification is
`normal` and the abnormality list is exactly the signal-quality event. -/
theorem allzero_core (f c s : ℚ → ℚ) (hf : f 0 = 0) :
    (analyzeBreathing f c s (List.replicate 128000 (0:ℚ)) 16000).classification.status
      = Status.normal
    ∧ (analyzeBreathing f c s (List.replicate 128000 (0:ℚ)) 16000).abnormalities
      = [(⟨AbnType.noise, "Poor signal quality / Environmental noise", JNum.num 35⟩,
          JNum.num 35)] :=
  analyzeBreathing_classify_of f c s (List.replicate 128000 (0:ℚ)) 16000
    (allzero_avgEnergy f c s hf) (allzero_avgRMS f c s hf) (allzero_avgZCR f c s hf)
    (allzero_energyVariance f c s hf) (allzero_breathingRate f c s hf)
    (allzero_windowFeatures f c s hf)

/-- C1 (counterexample): for the all-zero 8-second recording at 16 kHz the
classification status is not `abnormal` (it is `normal`): the
signal-quality check adds 15 to the score without clearing the normal
flag, and 15 stays below the threshold 20. -/
theorem analyzeBreathing_allzero_not_abnormal :
    (analyzeBreathing id id id (List.replicate 128000 (0:ℚ)) 16000).classification.status
      ≠ Status.abnormal := by
  rw [(allzero_core id id id rfl).1]
  intro hx
  exact Status.noConfusion hx

/-- C1 (amended): for an all-zero 8-second recording at 16 kHz,
analyzeBreathing yields avgEnergy = 0 and avgRMS = 0, the signal-quality
check triggers (its event is the sole abnormality), breathingRate
defaults to 12 — but the resulting classification status is `normal`,
not `abnormal`. -/
theorem analyzeBreathing_allzero (f c s : ℚ → ℚ) (hf : f 0 = 0) :
    (analyzeBreathing f c s (List.replicate 128000 (0:ℚ)) 16000).features.avgEnergy
        = JNum.num 0
    ∧ (analyzeBreathing f c s (List.replicate 128000 (0:ℚ)) 16000).features.avgRMS
        = JNum.num 0
    ∧ (analyzeBreathing f c s (List.replicate 128000 (0:ℚ)) 16000).features.breathingRate
        = JNum.num 12
    ∧ (analyzeBreathing f c s (List.replicate 128000 (0:ℚ)) 16000).abnormalities
        = [(⟨AbnType.noise, "Poor signal quality / Environmental noise", JNum.num 35⟩,
            JNum.num 35)]
    ∧ (analyzeBreathing f c s (List.replicate 128000 (0:ℚ)) 16000).classification.status
        = Status.normal :=
  ⟨allzero_avgEnergy f c s hf, allzero_avgRMS f c s hf, allzero_breathingRate f c s hf,
    (allzero_core f c s hf).2, (allzero_core f c s hf).1⟩

/-- C1 (witness): the amended claim applied at the identity embedding of
the irrational primitives. -/
theorem analyzeBreathing_allzero_witness :
    (id (0:ℚ) = 0)
    ∧ (analyzeBreathing id id id (List.replicate 128000 (0:ℚ)) 16000).classification.status
        = Status.normal :=
  ⟨rfl, (analyzeBreathing_allzero id id id rfl).2.2.2.2⟩
